import Mathlib

/-!
Verification development for the `upload_vods` orchestration script.

The Python source (`upload_vods.py` plus the constants of `config.example.py`)
is embedded shallowly: strings are lists of characters (Python strings compare
and slice by code point), the external uploader binary and the remote playlist
API are oracles supplied as functions in an `Env` record, the three persisted
JSON files are explicit state, and every externally visible side effect is
recorded in an event trace.
-/

namespace UploadVods

/-- Python strings, by code points. -/
abbrev Str := List Char

/-- Convert a Lean string literal to the character-list representation. -/
def str (s : String) : Str := s.data

/-- Characters stripped by Python's `str.strip()` (ASCII whitespace). -/
def pyIsSpace (c : Char) : Bool :=
  c = ' ' || c = '\t' || c = '\n' || c = '\x0d' || c = '\x0b' || c = '\x0c'

/-- Python `s.strip()`: drop leading and trailing whitespace. -/
def pyStrip (s : Str) : Str :=
  ((s.dropWhile pyIsSpace).reverse.dropWhile pyIsSpace).reverse

/-- Python `s.replace(p, r)` for a single-character pattern and single-character
replacement (scanning left to right, every occurrence). -/
def replaceChar (p r : Char) (s : Str) : Str :=
  s.map (fun c => if c = p then r else c)

/-- Python `s.replace(p, "")` for a single-character pattern. -/
def removeChar (p : Char) (s : Str) : Str :=
  s.filter (fun c => !(c = p))

/-- Python `sub in s` (substring containment). -/
def containsSub (needle : Str) : Str → Bool
  | [] => needle.isEmpty
  | c :: cs => needle.isPrefixOf (c :: cs) || containsSub needle cs

/-- Python `s.replace(pat, rep)` for a nonempty pattern `p0 :: ps`:
non-overlapping replacement scanning left to right.  A fuel argument makes the
recursion structural; `fuel ≥ s.length` always suffices. -/
def pyReplaceAux (p0 : Char) (ps rep : Str) : Nat → Str → Str
  | _, [] => []
  | 0, s => s
  | fuel + 1, c :: cs =>
    if (p0 :: ps).isPrefixOf (c :: cs) then
      rep ++ pyReplaceAux p0 ps rep fuel (cs.drop ps.length)
    else
      c :: pyReplaceAux p0 ps rep fuel cs

/-- Python `s.replace(pat, rep)` for a nonempty pattern. -/
def pyReplace (pat rep s : Str) : Str :=
  match pat with
  | [] => s
  | p0 :: ps => pyReplaceAux p0 ps rep s.length s

/-- Python `s.split(sep)` for a one-character separator. -/
def splitOnChar (sep : Char) : Str → List Str
  | [] => [[]]
  | c :: cs =>
    if c = sep then [] :: splitOnChar sep cs
    else
      match splitOnChar sep cs with
      | [] => [[c]]
      | p :: ps => (c :: p) :: ps

/-- Python `s.split(" [")` (the two-character separator used on filenames). -/
def splitOnSpaceBracket : Str → List Str
  | [] => [[]]
  | [c] => [[c]]
  | c1 :: c2 :: cs =>
    if c1 = ' ' && c2 = '[' then [] :: splitOnSpaceBracket cs
    else
      match splitOnSpaceBracket (c2 :: cs) with
      | [] => [[c1]]
      | p :: ps => (c1 :: p) :: ps

/-- Python `s.split(" ")[0]`: the segment before the first space. -/
def beforeFirstSpace (s : Str) : Str := s.takeWhile (fun c => !(c = ' '))

/-- Python `s.split(" ", 1)[1]`: everything after the first space
(only meaningful when a space is present). -/
def afterFirstSpace (s : Str) : Str := (s.dropWhile (fun c => !(c = ' '))).drop 1

/-- Python `s.rsplit(" ", 1)[0]`: the part before the last space, or the whole
string when no space occurs. -/
def rsplitHead : Str → Str
  | [] => []
  | c :: cs =>
    if ' ' ∈ cs then c :: rsplitHead cs
    else if c = ' ' then []
    else c :: cs

/-- Numeric value of a two-digit group. -/
def d2 (a b : Char) : Nat := (a.toNat - 48) * 10 + (b.toNat - 48)

/-- Numeric value of one digit character. -/
def d1 (a : Char) : Nat := a.toNat - 48

/-- One `strptime` numeric field of one or two digits with value in
`[lo, hi]`, preferring the two-digit form, as CPython's `_strptime` regex
alternations do for `%m`, `%d`, `%H`, `%M`, `%S`. -/
def parseField (lo hi : Nat) : Str → Option (Nat × Str)
  | a :: b :: rest =>
    if a.isDigit && b.isDigit && decide (lo ≤ d2 a b) && decide (d2 a b ≤ hi) then
      some (d2 a b, rest)
    else if a.isDigit && decide (lo ≤ d1 a) && decide (d1 a ≤ hi) then
      some (d1 a, b :: rest)
    else none
  | [a] =>
    if a.isDigit && decide (lo ≤ d1 a) && decide (d1 a ≤ hi) then some (d1 a, [])
    else none
  | [] => none

/-- Gregorian leap-year rule, as `datetime` uses. -/
def isLeap (y : Nat) : Bool := (y % 4 == 0 && y % 100 != 0) || y % 400 == 0

/-- Days in a month, as `datetime` validates. -/
def daysInMonth (y m : Nat) : Nat :=
  if m == 2 then (if isLeap y then 29 else 28)
  else if m == 4 || m == 6 || m == 9 || m == 11 then 30
  else 31

/-- `datetime.strptime(s, "%Y-%m-%dT%H:%M:%SZ")`, returning the date fields on
success and `none` on any `ValueError` (the script only ever catches the
failure and falls back, so the time-of-day fields are validated but dropped). -/
def parseTs (s : Str) : Option (Nat × Nat × Nat) :=
  match s with
  | y1 :: y2 :: y3 :: y4 :: '-' :: r1 =>
    if y1.isDigit && y2.isDigit && y3.isDigit && y4.isDigit then
      let y := d1 y1 * 1000 + d1 y2 * 100 + d1 y3 * 10 + d1 y4
      match parseField 1 12 r1 with
      | some (m, '-' :: r2) =>
        match parseField 1 31 r2 with
        | some (d, 'T' :: r3) =>
          match parseField 0 23 r3 with
          | some (_, ':' :: r4) =>
            match parseField 0 59 r4 with
            | some (_, ':' :: r5) =>
              match parseField 0 59 r5 with
              | some (_, ['Z']) =>
                if 1 ≤ y && d ≤ daysInMonth y m then some (y, m, d) else none
              | _ => none
            | _ => none
          | _ => none
        | _ => none
      | _ => none
    else none
  | _ => none

/-- The decimal digit character for `n < 10`. -/
def digitChar (n : Nat) : Char :=
  Char.ofNat (48 + n % 10)

/-- Zero-padded two-digit decimal rendering (for `strftime` fields). -/
def pad2 (n : Nat) : Str := [digitChar (n / 10 % 10), digitChar n]

/-- Zero-padded four-digit decimal rendering (for `strftime` `%Y`). -/
def pad4 (n : Nat) : Str :=
  [digitChar (n / 1000 % 10), digitChar (n / 100 % 10), digitChar (n / 10 % 10), digitChar n]

/-- `dt.strftime("%y%m%d")`. -/
def fmtYYMMDD (y m d : Nat) : Str := pad2 (y % 100) ++ pad2 m ++ pad2 d

/-- `dt.strftime("%Y-%m-%d")`. -/
def fmtDate (y m d : Nat) : Str := pad4 y ++ ['-'] ++ pad2 m ++ ['-'] ++ pad2 d

/-- Python truthiness of an optional string (`None` and `""` are falsy);
collapses a falsy value to `none`. -/
def truthy : Option Str → Option Str
  | none => none
  | some s => if s.isEmpty then none else some s

/-- `f"...{v}..."` interpolation of a value that may be Python `None`. -/
def pyShow : Option Str → Str
  | none => str "None"
  | some s => s

/-- The parsed content of a metadata sidecar JSON file; `none` fields are
absent keys.  (`{}` — the fallback for an unreadable sidecar — is all-`none`.) -/
structure Info where
  started_at : Option Str := none
  created_at : Option Str := none
  published_at : Option Str := none
  title : Option Str := none
  game_name : Option Str := none
  category : Option Str := none
  language : Option Str := none
  thumbnail_url : Option Str := none
deriving DecidableEq

/-- One candidate record as built by `find_vods`. -/
structure Vod where
  videoName : Str
  vodId : Option Str
  userName : Str
  startedAt : Str
  info : Info
deriving DecidableEq

/-- The metadata payload written to `tmp_video_meta.json` by `build_metadata`. -/
structure Meta where
  title : Str
  description : Str
  tags : List Str
  language : Str
  thumbnail : Str
  privacy : Str
  recordingDate : Option Str := none
deriving DecidableEq

/-- Result of one `subprocess.run` of the uploader binary. -/
structure RunResult where
  returncode : Int
  stderr : Str
deriving DecidableEq

/-- The configuration constants the orchestration reads from `config.py`
(`config.example.py` shows the defaults; it defines no `QUOTA_WAIT_HOURS`,
so that one must come from the operator's own `config.py`). -/
structure Config where
  maxUploads : Nat := 6
  videoPrivacy : Str := str "unlisted"
  quotaWaitHours : Nat
deriving DecidableEq

/-- The external collaborators: the uploader binary (keyed by the media file
name, the metadata payload and the playlist id passed on its command line) and
the remote create-playlist API (keyed by the owner name; `none` models any
exception raised while building the client or executing the request). -/
structure Env where
  uploader : Str → Meta → Str → RunResult
  createPlaylist : Str → Option Str

/-- `extract_vod_id`: the text between the last `[` and the following `]`,
or `None` when the name has no bracket pair. -/
def extract_vod_id (name : Str) : Option Str :=
  if name.contains '[' && name.contains ']' then
    some ((splitOnChar ']' ((splitOnChar '[' name).getLastD [])).headD [])
  else none

/-- `get_title_from_filename`: the token between the date and the VOD id.
`Except.error` models the uncaught `IndexError` raised when the part before
`" ["` contains no space (`parts[0].split(" ", 1)[1]`). -/
def get_title_from_filename (filename : Str) : Except Unit (Option Str) :=
  match splitOnSpaceBracket filename with
  | p :: _ :: _ =>
    if p.contains ' ' then
      .ok (some (pyStrip (removeChar '⭐' (replaceChar '_' ' ' (afterFirstSpace p)))))
    else .error ()
  | _ => .ok none

/-- `clean_title`: normalise separators and glyphs, then truncate to
`max_length` at the last space of the cut prefix when too long. -/
def clean_title (title : Str) (maxLength : Nat := 100) : Str :=
  let t := pyStrip (removeChar '⭐' (replaceChar '_' ' ' title))
  if maxLength < t.length then rsplitHead (t.take maxLength) else t

/-- The `YYMMDD` prefix taken from the leading filename date token
(`filename_date.replace("-", "")[2:]`). -/
def datePrefixFromFilename (videoName : Str) : Str :=
  (removeChar '-' (beforeFirstSpace videoName)).drop 2

/-- `build_metadata`.  `Except.error` models the uncaught `IndexError` that
`get_title_from_filename` can raise (`build_metadata` is called outside the
`try` of `upload_video`, so that error aborts the whole run). -/
def build_metadata (cfg : Config) (vod : Vod) : Except Unit Meta :=
  let info := vod.info
  let dateStr : Option Str :=
    (truthy info.started_at).orElse fun _ =>
      (truthy info.created_at).orElse fun _ => truthy info.published_at
  let parsed : Option (Nat × Nat × Nat) :=
    match dateStr with
    | some ds => parseTs ds
    | none => none
  let datePrefix : Str :=
    match parsed with
    | some (y, m, d) => fmtYYMMDD y m d
    | none => datePrefixFromFilename vod.videoName
  let recordingDate : Option Str :=
    match parsed with
    | some (y, m, d) => some (fmtDate y m d)
    | none => none
  let t0 : Str := (info.title).getD []
  let titleStep : Except Unit Str :=
    if t0.isEmpty then
      match get_title_from_filename vod.videoName with
      | .error e => .error e
      | .ok ft =>
        match truthy ft with
        | some t1 => .ok t1
        | none => .ok (str "VOD " ++ pyShow vod.vodId)
    else .ok t0
  match titleStep with
  | .error e => .error e
  | .ok t =>
    let title := clean_title (datePrefix ++ [' '] ++ t)
    let game := (info.game_name).getD ((info.category).getD (str "Unknown"))
    let description :=
      str "Streamed by " ++ vod.userName ++
      str "\nGame: " ++ game ++
      str "\nOriginal broadcast: " ++ (match dateStr with | some ds => ds | none => str "unknown") ++
      str "\nVOD ID: " ++ pyShow vod.vodId ++ str "\n"
    .ok {
      title := title
      description := description
      tags := [vod.userName, str "Twitch VOD", (info.game_name).getD ((info.category).getD [])]
      language := (info.language).getD (str "en")
      thumbnail := pyReplace (str "\x7bheight\x7d") (str "720")
        (pyReplace (str "\x7bwidth\x7d") (str "1280") ((info.thumbnail_url).getD []))
      privacy := cfg.videoPrivacy
      recordingDate := recordingDate
    }

/-- Externally visible side effects of a run, in order. -/
inductive Ev where
  | createPlaylistCall (title : Str)
  | savePlaylists
  | uploaderCall (videoName : Str) (meta : Meta) (playlistId : Str)
  | saveLedger (ids : List (Option Str))
  | authWait
  | quotaSleep (seconds : Nat)
deriving DecidableEq

/-- The JSON content of `playlists.json`: an object (the intended shape), or an
array — which is what `load_json_file` yields (`[]`) when the file is missing
or corrupt, since its fallback literal is a list. -/
inductive PlaylistsFile where
  | arr (l : List Str)
  | obj (m : List (Str × Str))
deriving DecidableEq

/-- First-match association-list lookup (Python dict lookup; keys unique). -/
def plLookup : List (Str × Str) → Str → Option Str
  | [], _ => none
  | (k, v) :: rest, u => if k = u then some v else plLookup rest u

/-- Result of `get_or_create_playlist_id`: a playlist id, `None`
(creation failed inside the `try`), or an uncaught `TypeError`
(`playlists[user_name]` indexing a list with a string, outside the `try`). -/
inductive PlResult where
  | ok (pid : Str)
  | failure
  | crash
deriving DecidableEq

/-- `get_or_create_playlist_id`.  When the backing JSON is a list (the state
after a missing or corrupt file), a cache hit raises an uncaught `TypeError`;
a miss still issues the remote create request, after which the assignment
`playlists[user_name] = playlist_id` raises `TypeError` inside the `try`,
which the `except` turns into `None` — nothing is persisted. -/
def get_or_create_playlist_id (env : Env) (u : Str) (pf : PlaylistsFile) :
    PlResult × PlaylistsFile × List Ev :=
  match pf with
  | .obj m =>
    match plLookup m u with
    | some pid => (.ok pid, pf, [])
    | none =>
      match env.createPlaylist u with
      | some pid =>
        (.ok pid, .obj (m ++ [(u, pid)]),
          [.createPlaylistCall (u ++ str " VODs"), .savePlaylists])
      | none => (.failure, pf, [.createPlaylistCall (u ++ str " VODs")])
  | .arr l =>
    if u ∈ l then (.crash, pf, [])
    else
      -- whether or not the remote create succeeds, the list assignment
      -- raises and the call returns None without persisting
      (.failure, pf, [.createPlaylistCall (u ++ str " VODs")])

/-- `"quotaExceeded" in result.stderr`. -/
def quotaSig (r : RunResult) : Bool := containsSub (str "quotaExceeded") r.stderr

/-- `"invalid_grant" in result.stderr or "Token has been expired or revoked" in result.stderr`. -/
def authSig (r : RunResult) : Bool :=
  containsSub (str "invalid_grant") r.stderr ||
  containsSub (str "Token has been expired or revoked") r.stderr

/-- `"error parsing file" in result.stderr and "parsing time" in result.stderr`. -/
def dateParseSig (r : RunResult) : Bool :=
  containsSub (str "error parsing file") r.stderr &&
  containsSub (str "parsing time") r.stderr

/-- The degraded metadata of the recordingDate-parse-error retry: drop
`recordingDate` and, when the filename yields a (truthy) title, rebuild the
title from the date token of the current title plus the filename title. -/
def retryMetaDateErr (vod : Vod) (m : Meta) : Meta :=
  match get_title_from_filename vod.videoName with
  | .ok (some ft) =>
    if ft.isEmpty then { m with recordingDate := none }
    else { m with title := clean_title (beforeFirstSpace m.title ++ [' '] ++ ft),
                  recordingDate := none }
  | _ => { m with recordingDate := none }

/-- The degraded metadata of the generic fallback retry: substitute the
filename-derived title, keeping `recordingDate`. -/
def retryMetaGeneric (vod : Vod) (m : Meta) : Meta :=
  match get_title_from_filename vod.videoName with
  | .ok (some ft) =>
    if ft.isEmpty then m
    else { m with title := clean_title (beforeFirstSpace m.title ++ [' '] ++ ft) }
  | _ => m

/-- Per-candidate outcome of `upload_video`: returned `True`, returned
`False`, terminated the process via `handle_quota_exceeded` (sleep then
`sys.exit`), or raised outside its `try` (caught only by `main`'s
outermost handler, ending the run). -/
inductive UVOut where
  | success
  | failed
  | quotaExit
  | crashed
deriving DecidableEq

/-- The attempt sequence of `upload_video` from the first `subprocess.run`
on: outcome, resulting ledger, and emitted events. -/
def uploadAttempts (env : Env) (cfg : Config) (vod : Vod) (pid : Str) (m1 : Meta)
    (L : List (Option Str)) : UVOut × List (Option Str) × List Ev :=
  let r1 := env.uploader vod.videoName m1 pid
  let t1 : List Ev := [.uploaderCall vod.videoName m1 pid]
  if quotaSig r1 then
    (.quotaExit, L, t1 ++ [.quotaSleep (cfg.quotaWaitHours * 3600)])
  else if authSig r1 then
    (.failed, L, t1 ++ [.authWait])
  else if r1.returncode != 0 then
    if dateParseSig r1 then
      match get_title_from_filename vod.videoName with
      | .error _ => (.failed, L, t1)  -- IndexError, caught by the enclosing except
      | .ok _ =>
        let m2 := retryMetaDateErr vod m1
        let r2 := env.uploader vod.videoName m2 pid
        let t2 := t1 ++ [.uploaderCall vod.videoName m2 pid]
        if r2.returncode == 0 then
          let L2 := L ++ [vod.vodId]
          (.success, L2, t2 ++ [.saveLedger L2])
        else (.failed, L, t2)
    else if authSig r1 then
      (.failed, L, t1 ++ [.authWait])  -- line 347 of the source; unreachable here
    else
      match get_title_from_filename vod.videoName with
      | .error _ => (.failed, L, t1)  -- IndexError, caught by the enclosing except
      | .ok ft =>
        match truthy ft with
        | none => (.failed, L, t1)  -- no retry; final returncode check sees r1 ≠ 0
        | some _ =>
          let m2 := retryMetaGeneric vod m1
          let r2 := env.uploader vod.videoName m2 pid
          let t2 := t1 ++ [.uploaderCall vod.videoName m2 pid]
          if quotaSig r2 then
            (.quotaExit, L, t2 ++ [.quotaSleep (cfg.quotaWaitHours * 3600)])
          else if authSig r2 then
            (.failed, L, t2 ++ [.authWait])
          else if r2.returncode == 0 then
            let L2 := L ++ [vod.vodId]
            (.success, L2, t2 ++ [.saveLedger L2])
          else (.failed, L, t2)
  else
    let L2 := L ++ [vod.vodId]
    (.success, L2, t1 ++ [.saveLedger L2])

/-- Result record of one `upload_video` call. -/
structure UVRes where
  out : UVOut
  ledger : List (Option Str)
  pf : PlaylistsFile
  trace : List Ev
deriving DecidableEq

/-- `upload_video`: resolve the playlist, build metadata, then run the
attempt sequence.  Playlist resolution and `build_metadata` happen before the
`try`, so their exceptions abort the whole run (`crashed`). -/
def upload_video (env : Env) (cfg : Config) (vod : Vod) (L : List (Option Str))
    (pf : PlaylistsFile) : UVRes :=
  match get_or_create_playlist_id env vod.userName pf with
  | (.crash, pf2, t0) => ⟨.crashed, L, pf2, t0⟩
  | (.failure, pf2, t0) => ⟨.failed, L, pf2, t0⟩
  | (.ok pid, pf2, t0) =>
    match build_metadata cfg vod with
    | .error _ => ⟨.crashed, L, pf2, t0⟩
    | .ok m1 =>
      match uploadAttempts env cfg vod pid m1 L with
      | (out, L2, t) => ⟨out, L2, pf2, t0 ++ t⟩

/-- Mutable state of `main`'s candidate loop. -/
structure RunState where
  ledger : List (Option Str)
  pf : PlaylistsFile
  uploadsDone : Nat
  currentUser : Option Str
deriving DecidableEq

/-- Result of a run: final persisted state, trace, the `upload_video`
invocations with the loop counters at each, and whether the loop reached the
end of the candidate list (`false` after the cap break, a quota exit, or an
uncaught exception). -/
structure RunOut where
  ledger : List (Option Str)
  pf : PlaylistsFile
  uploadsDone : Nat
  trace : List Ev
  attempts : List (Vod × Nat × Option Str)
  processedAll : Bool
deriving DecidableEq

/-- The candidate loop of `main`. -/
def loop (env : Env) (cfg : Config) : List Vod → RunState → RunOut
  | [], st => ⟨st.ledger, st.pf, st.uploadsDone, [], [], true⟩
  | vod :: rest, st =>
    if vod.vodId ∈ st.ledger then loop env cfg rest st
    else if cfg.maxUploads ≤ st.uploadsDone ∧ st.currentUser ≠ some vod.userName then
      ⟨st.ledger, st.pf, st.uploadsDone, [], [], false⟩
    else
      match upload_video env cfg vod st.ledger st.pf with
      | ⟨.success, L2, pf2, tr⟩ =>
        let res := loop env cfg rest ⟨L2, pf2, st.uploadsDone + 1, some vod.userName⟩
        ⟨res.ledger, res.pf, res.uploadsDone, tr ++ res.trace,
          (vod, st.uploadsDone, st.currentUser) :: res.attempts, res.processedAll⟩
      | ⟨.failed, L2, pf2, tr⟩ =>
        let res := loop env cfg rest ⟨L2, pf2, st.uploadsDone, st.currentUser⟩
        ⟨res.ledger, res.pf, res.uploadsDone, tr ++ res.trace,
          (vod, st.uploadsDone, st.currentUser) :: res.attempts, res.processedAll⟩
      | ⟨.quotaExit, L2, pf2, tr⟩ =>
        ⟨L2, pf2, st.uploadsDone, tr, [(vod, st.uploadsDone, st.currentUser)], false⟩
      | ⟨.crashed, L2, pf2, tr⟩ =>
        ⟨L2, pf2, st.uploadsDone, tr, [(vod, st.uploadsDone, st.currentUser)], false⟩

/-- Three-way code-point comparison of Python strings. -/
def strCmp : Str → Str → Ordering
  | [], [] => .eq
  | [], _ :: _ => .lt
  | _ :: _, [] => .gt
  | a :: as, b :: bs =>
    if a.toNat < b.toNat then .lt
    else if b.toNat < a.toNat then .gt
    else strCmp as bs

/-- The sort key order of `main`: the tuple `(user_name, started_at)` under
Python's lexicographic string comparison. -/
def keyLe (a b : Vod) : Bool :=
  match strCmp a.userName b.userName with
  | .lt => true
  | .gt => false
  | .eq => !(strCmp a.startedAt b.startedAt == .gt)

/-- `keyLe` as a relation. -/
def vodLe (a b : Vod) : Prop := keyLe a b = true

instance : DecidableRel vodLe := fun a b => inferInstanceAs (Decidable (keyLe a b = true))

/-- `vods.sort(key=lambda x: (x["user_name"], x["started_at"]))`: Python's
sort is a stable sort by the key order, hence equal to stable insertion sort
by `vodLe`. -/
def sortVods (pool : List Vod) : List Vod := List.insertionSort vodLe pool

/-- A full orchestration run over a candidate pool, given the initial ledger
and playlists-file state. -/
def runMain (env : Env) (cfg : Config) (pool : List Vod) (L0 : List (Option Str))
    (pf0 : PlaylistsFile) : RunOut :=
  loop env cfg (sortVods pool) ⟨L0, pf0, 0, none⟩

/-- One file of a session directory: its name and, for sidecar JSON files,
the parse result (`none` = unreadable, which `find_vods` turns into `{}`). -/
structure FileEntry where
  name : Str
  info : Option Info
deriving DecidableEq

/-- A session directory. -/
structure SessionDir where
  files : List FileEntry
deriving DecidableEq

/-- An owner directory under the storage root. -/
structure UserDir where
  name : Str
  sessions : List SessionDir
deriving DecidableEq

/-- `session_dir.glob("*-info.json")` membership. -/
def isInfoJson (n : Str) : Bool := (str "-info.json").isSuffixOf n

/-- The candidates of one session directory, in file order. -/
def sessionVods (uname : Str) (sd : SessionDir) : List Vod :=
  (sd.files.filter (fun f => isInfoJson f.name)).filterMap (fun f =>
    let videoName := pyReplace (str "-info.json") (str "-video.mp4") f.name
    if (sd.files.map FileEntry.name).contains videoName then
      let inf := f.info.getD {}
      some {
        videoName := videoName
        vodId := extract_vod_id f.name
        userName := uname
        startedAt := (inf.started_at).getD []
        info := inf }
    else none)

/-- `find_vods`: walk owner directories, then session directories, pairing
each `*-info.json` with its `*-video.mp4`. -/
def find_vods (users : List UserDir) : List Vod :=
  (users.map (fun u => (u.sessions.map (sessionVods u.name)).flatten)).flatten

/-- A JSON document as far as the ledger loader distinguishes it: a list of
string-or-null entries, or anything else. -/
inductive JVal where
  | jlist (ids : List (Option Str))
  | jother
deriving DecidableEq

/-- The on-disk state of a JSON file. -/
inductive FileState where
  | missing
  | corrupt
  | parsed (v : JVal)
deriving DecidableEq

/-- `load_json_file`: missing and undecodable files both yield the empty-list
literal; otherwise the parsed document. -/
def load_json_file : FileState → JVal
  | .missing => .jlist []
  | .corrupt => .jlist []
  | .parsed v => v

/-- `main`'s ledger initialisation: `load_json_file` plus the
`isinstance(..., list)` guard. -/
def initLedger (f : FileState) : List (Option Str) :=
  match load_json_file f with
  | .jlist l => l
  | .jother => []

/-- `main`: load the ledger, scan for candidates, sort, and loop. -/
def mainRun (env : Env) (cfg : Config) (users : List UserDir) (ledgerFile : FileState)
    (pf0 : PlaylistsFile) : RunOut :=
  runMain env cfg (find_vods users) (initLedger ledgerFile) pf0

/-! ### Order lemmas for the sort key -/

theorem char_toNat_inj {a b : Char} (h : a.toNat = b.toNat) : a = b := by
  rcases a with ⟨⟨a, ha⟩, pa⟩
  rcases b with ⟨⟨b, hb⟩, pb⟩
  simp [Char.toNat, UInt32.toNat] at h
  subst h
  rfl

theorem strCmp_swap : ∀ (a b : Str), strCmp b a = (strCmp a b).swap := by
  intro a
  induction a with
  | nil => intro b; cases b <;> rfl
  | cons x xs ih =>
    intro b
    cases b with
    | nil => rfl
    | cons y ys =>
      simp only [strCmp]
      by_cases h1 : x.toNat < y.toNat
      · simp [h1, Nat.lt_asymm h1, Ordering.swap]
      · by_cases h2 : y.toNat < x.toNat
        · simp [h1, h2, Ordering.swap]
        · simp [h1, h2, ih ys]

theorem strCmp_eq_iff : ∀ (a b : Str), strCmp a b = .eq ↔ a = b := by
  intro a
  induction a with
  | nil => intro b; cases b <;> simp [strCmp]
  | cons x xs ih =>
    intro b
    cases b with
    | nil => simp [strCmp]
    | cons y ys =>
      simp only [strCmp]
      by_cases h1 : x.toNat < y.toNat
      · simp only [if_pos h1]
        constructor
        · intro h; cases h
        · rintro ⟨⟩; exact absurd h1 (Nat.lt_irrefl _)
      · by_cases h2 : y.toNat < x.toNat
        · simp only [if_neg h1, if_pos h2]
          constructor
          · intro h; cases h
          · rintro ⟨⟩; exact absurd h2 (Nat.lt_irrefl _)
        · have hxy : x = y := char_toNat_inj (Nat.le_antisymm (Nat.not_lt.1 h2) (Nat.not_lt.1 h1))
          subst hxy
          simp [h1, ih ys]

theorem strCmp_lt_trans : ∀ (a b c : Str),
    strCmp a b = .lt → strCmp b c = .lt → strCmp a c = .lt := by
  intro a
  induction a with
  | nil =>
    intro b c hab hbc
    cases b with
    | nil => simp [strCmp] at hab
    | cons y ys =>
      cases c with
      | nil => simp [strCmp] at hbc
      | cons z zs => rfl
  | cons x xs ih =>
    intro b c hab hbc
    cases b with
    | nil => simp [strCmp] at hab
    | cons y ys =>
      cases c with
      | nil => simp [strCmp] at hbc
      | cons z zs =>
        simp only [strCmp] at hab hbc ⊢
        by_cases h1 : x.toNat < y.toNat
        · by_cases h2 : y.toNat < z.toNat
          · simp [Nat.lt_trans h1 h2]
          · by_cases h3 : z.toNat < y.toNat
            · rw [if_neg h2, if_pos h3] at hbc; cases hbc
            · have : y.toNat = z.toNat := by omega
              simp [show x.toNat < z.toNat by omega]
        · by_cases h4 : y.toNat < x.toNat
          · rw [if_neg h1, if_pos h4] at hab; cases hab
          · have hxy : x.toNat = y.toNat := Nat.le_antisymm (Nat.not_lt.1 h4) (Nat.not_lt.1 h1)
            rw [if_neg h1, if_neg h4] at hab
            by_cases h2 : y.toNat < z.toNat
            · simp [show x.toNat < z.toNat by omega]
            · by_cases h3 : z.toNat < y.toNat
              · rw [if_neg h2, if_pos h3] at hbc; cases hbc
              · rw [if_neg h2, if_neg h3] at hbc
                have hyz : y.toNat = z.toNat := by omega
                rw [if_neg (show ¬ x.toNat < z.toNat by omega),
                  if_neg (show ¬ z.toNat < x.toNat by omega)]
                exact ih ys zs hab hbc

theorem strCmp_le_trans {a b c : Str} (hab : strCmp a b ≠ .gt) (hbc : strCmp b c ≠ .gt) :
    strCmp a c ≠ .gt := by
  cases h1 : strCmp a b with
  | gt => exact absurd h1 hab
  | eq => rw [(strCmp_eq_iff a b).1 h1]; exact hbc
  | lt =>
    cases h2 : strCmp b c with
    | gt => exact absurd h2 hbc
    | eq => rw [← (strCmp_eq_iff b c).1 h2]; simp [h1]
    | lt => simp [strCmp_lt_trans a b c h1 h2]

theorem keyLe_total (a b : Vod) : keyLe a b = true ∨ keyLe b a = true := by
  unfold keyLe
  rw [strCmp_swap a.userName b.userName, strCmp_swap a.startedAt b.startedAt]
  cases h : strCmp a.userName b.userName with
  | lt => left; rfl
  | gt => right; rfl
  | eq =>
    cases h2 : strCmp a.startedAt b.startedAt with
    | lt => left; rfl
    | gt => right; rfl
    | eq => left; rfl

theorem keyLe_trans (a b c : Vod) (hab : keyLe a b = true) (hbc : keyLe b c = true) :
    keyLe a c = true := by
  unfold keyLe at hab hbc ⊢
  cases h1 : strCmp a.userName b.userName with
  | gt => rw [h1] at hab; cases hab
  | lt =>
    cases h2 : strCmp b.userName c.userName with
    | gt => rw [h2] at hbc; cases hbc
    | lt => rw [strCmp_lt_trans _ _ _ h1 h2]
    | eq =>
      have he : b.userName = c.userName := (strCmp_eq_iff _ _).1 h2
      rw [← he, h1]
  | eq =>
    have he : a.userName = b.userName := (strCmp_eq_iff _ _).1 h1
    rw [h1] at hab
    cases h2 : strCmp b.userName c.userName with
    | gt => rw [h2] at hbc; cases hbc
    | lt => rw [he, h2]
    | eq =>
      have he2 : b.userName = c.userName := (strCmp_eq_iff _ _).1 h2
      rw [h2] at hbc
      rw [he, he2, (strCmp_eq_iff c.userName c.userName).2 rfl]
      have hab' : strCmp a.startedAt b.startedAt ≠ .gt := by
        intro h; rw [h] at hab; exact absurd hab (by decide)
      have hbc' : strCmp b.startedAt c.startedAt ≠ .gt := by
        intro h; rw [h] at hbc; exact absurd hbc (by decide)
      have hac := strCmp_le_trans hab' hbc'
      cases h3 : strCmp a.startedAt c.startedAt with
      | gt => exact absurd h3 hac
      | lt => rfl
      | eq => rfl

instance : IsTotal Vod vodLe := ⟨keyLe_total⟩

instance : IsTrans Vod vodLe := ⟨fun a b c => keyLe_trans a b c⟩

theorem sorted_sortVods (pool : List Vod) : (sortVods pool).Pairwise vodLe :=
  List.sorted_insertionSort vodLe pool

/-! ### Structural lemmas about one `upload_video` call -/

/-- The uploader-invocation events of a trace. -/
def uploaderCallsOf (tr : List Ev) : List Ev :=
  tr.filter (fun e => match e with | .uploaderCall _ _ _ => true | _ => false)

theorem goc_trace_shape (env : Env) (u : Str) (pf : PlaylistsFile) :
    ∀ e ∈ (get_or_create_playlist_id env u pf).2.2,
      e = .createPlaylistCall (u ++ str " VODs") ∨ e = .savePlaylists := by
  rcases pf with l | m
  · by_cases hc : u ∈ l <;> simp [get_or_create_playlist_id, hc]
  · rcases hl : plLookup m u with _ | pid
    · rcases hcp : env.createPlaylist u with _ | pid2 <;>
        simp [get_or_create_playlist_id, hl, hcp]
    · simp [get_or_create_playlist_id, hl]

theorem ua_success_shape (env : Env) (cfg : Config) (vod : Vod) (pid : Str) (m1 : Meta)
    (L L2 : List (Option Str)) (t : List Ev)
    (h : uploadAttempts env cfg vod pid m1 L = (.success, L2, t)) :
    L2 = L ++ [vod.vodId] ∧
    ∃ tp m, t = tp ++ [.uploaderCall vod.videoName m pid, .saveLedger (L ++ [vod.vodId])] ∧
      (env.uploader vod.videoName m pid).returncode = 0 := by
  simp only [uploadAttempts] at h
  repeat' split at h
  all_goals simp only [Prod.mk.injEq] at h
  all_goals try (exact absurd h.1 (by decide))
  all_goals obtain ⟨-, hL, ht⟩ := h
  all_goals subst ht
  all_goals refine ⟨hL.symm, ?_⟩
  all_goals first
    | exact ⟨[Ev.uploaderCall vod.videoName m1 pid], retryMetaDateErr vod m1, by simp,
        by rename_i hrc; simpa using hrc⟩
    | exact ⟨[Ev.uploaderCall vod.videoName m1 pid], retryMetaGeneric vod m1, by simp,
        by rename_i hrc; simpa using hrc⟩
    | exact ⟨[], m1, by simp,
        by rename_i hrc; simp only [bne_iff_ne, ne_eq, not_not] at hrc; exact hrc⟩

theorem ua_nonsuccess (env : Env) (cfg : Config) (vod : Vod) (pid : Str) (m1 : Meta)
    (L L2 : List (Option Str)) (t : List Ev) (out : UVOut)
    (h : uploadAttempts env cfg vod pid m1 L = (out, L2, t)) (hout : out ≠ .success) :
    L2 = L ∧ ∀ ids, Ev.saveLedger ids ∉ t := by
  simp only [uploadAttempts] at h
  repeat' split at h
  all_goals simp only [Prod.mk.injEq] at h
  all_goals obtain ⟨ho, hL, ht⟩ := h
  all_goals first
    | (exact absurd ho.symm hout)
    | (subst ht; exact ⟨hL.symm, by intro ids; simp⟩)

theorem ua_sleep (env : Env) (cfg : Config) (vod : Vod) (pid : Str) (m1 : Meta)
    (L L2 : List (Option Str)) (t : List Ev) (out : UVOut) (s : Nat)
    (h : uploadAttempts env cfg vod pid m1 L = (out, L2, t)) (hs : Ev.quotaSleep s ∈ t) :
    out = .quotaExit ∧ s = cfg.quotaWaitHours * 3600 ∧
      t.getLast? = some (.quotaSleep s) := by
  simp only [uploadAttempts] at h
  repeat' split at h
  all_goals simp only [Prod.mk.injEq] at h
  all_goals obtain ⟨ho, hL, ht⟩ := h
  all_goals subst ht
  all_goals simp at hs
  all_goals subst hs
  all_goals exact ⟨ho.symm, rfl, rfl⟩

theorem ua_no_sleep_of_not_quota (env : Env) (cfg : Config) (vod : Vod) (pid : Str)
    (m1 : Meta) (L L2 : List (Option Str)) (t : List Ev) (out : UVOut) (s : Nat)
    (h : uploadAttempts env cfg vod pid m1 L = (out, L2, t)) (hout : out ≠ .quotaExit) :
    Ev.quotaSleep s ∉ t := by
  intro hs
  exact absurd (ua_sleep env cfg vod pid m1 L L2 t out s h hs).1 hout

theorem ua_calls (env : Env) (cfg : Config) (vod : Vod) (pid : Str) (m1 : Meta)
    (L L2 : List (Option Str)) (t : List Ev) (out : UVOut)
    (h : uploadAttempts env cfg vod pid m1 L = (out, L2, t)) :
    uploaderCallsOf t = [.uploaderCall vod.videoName m1 pid] ∨
    (uploaderCallsOf t = [.uploaderCall vod.videoName m1 pid,
        .uploaderCall vod.videoName (retryMetaDateErr vod m1) pid] ∨
      uploaderCallsOf t = [.uploaderCall vod.videoName m1 pid,
        .uploaderCall vod.videoName (retryMetaGeneric vod m1) pid]) ∧
      (env.uploader vod.videoName m1 pid).returncode ≠ 0 ∧
      quotaSig (env.uploader vod.videoName m1 pid) = false ∧
      authSig (env.uploader vod.videoName m1 pid) = false := by
  simp only [uploadAttempts] at h
  repeat' split at h
  all_goals simp only [Prod.mk.injEq] at h
  all_goals obtain ⟨ho, hL, ht⟩ := h
  all_goals subst ht
  all_goals first
    | (left; simp [uploaderCallsOf]; done)
    | (right;
        refine ⟨?_, ?_, ?_, ?_⟩ <;>
          first
            | (left; simp [uploaderCallsOf]; done)
            | (right; simp [uploaderCallsOf]; done)
            | simp_all [bne_iff_ne]
            | simp_all)

theorem goc_no_sleep (env : Env) (u : Str) (pf : PlaylistsFile) (s : Nat) :
    Ev.quotaSleep s ∉ (get_or_create_playlist_id env u pf).2.2 := by
  intro hmem
  rcases goc_trace_shape env u pf _ hmem with h | h <;> cases h

theorem goc_no_save (env : Env) (u : Str) (pf : PlaylistsFile) (ids : List (Option Str)) :
    Ev.saveLedger ids ∉ (get_or_create_playlist_id env u pf).2.2 := by
  intro hmem
  rcases goc_trace_shape env u pf _ hmem with h | h <;> cases h

theorem goc_no_call (env : Env) (u : Str) (pf : PlaylistsFile) :
    uploaderCallsOf (get_or_create_playlist_id env u pf).2.2 = [] := by
  simp only [uploaderCallsOf, List.filter_eq_nil_iff]
  intro e hmem
  rcases goc_trace_shape env u pf _ hmem with h | h <;> (subst h; simp)

theorem uv_success_shape (env : Env) (cfg : Config) (vod : Vod) (L : List (Option Str))
    (pf : PlaylistsFile) {L2 : List (Option Str)} {pf2 : PlaylistsFile} {tr : List Ev}
    (h : upload_video env cfg vod L pf = ⟨.success, L2, pf2, tr⟩) :
    L2 = L ++ [vod.vodId] ∧
    ∃ tp m pid, tr = tp ++ [.uploaderCall vod.videoName m pid, .saveLedger (L ++ [vod.vodId])] ∧
      (env.uploader vod.videoName m pid).returncode = 0 := by
  unfold upload_video at h
  rcases hg : get_or_create_playlist_id env vod.userName pf with ⟨res, pfg, t0⟩
  rw [hg] at h
  dsimp only at h
  rcases res with pid | _ | _
  · rcases hb : build_metadata cfg vod with e | m1
    · rw [hb] at h; simp [UVRes.mk.injEq] at h
    · rw [hb] at h
      dsimp only at h
      rcases hua : uploadAttempts env cfg vod pid m1 L with ⟨out', L2', t'⟩
      rw [hua] at h
      dsimp only at h
      simp only [UVRes.mk.injEq] at h
      obtain ⟨ho, hL, hpf, ht⟩ := h
      rw [ho] at hua
      obtain ⟨hL2, tp, m, htp, hrc⟩ := ua_success_shape env cfg vod pid m1 L L2' t' hua
      exact ⟨hL.symm.trans hL2, t0 ++ tp, m, pid, by rw [← ht, htp]; simp, hrc⟩
  · simp [UVRes.mk.injEq] at h
  · simp [UVRes.mk.injEq] at h

theorem uv_nonsuccess (env : Env) (cfg : Config) (vod : Vod) (L : List (Option Str))
    (pf : PlaylistsFile) {out : UVOut} {L2 : List (Option Str)} {pf2 : PlaylistsFile}
    {tr : List Ev} (h : upload_video env cfg vod L pf = ⟨out, L2, pf2, tr⟩)
    (hout : out ≠ .success) :
    L2 = L ∧ ∀ ids, Ev.saveLedger ids ∉ tr := by
  unfold upload_video at h
  rcases hg : get_or_create_playlist_id env vod.userName pf with ⟨res, pfg, t0⟩
  rw [hg] at h
  dsimp only at h
  have h0 : ∀ ids, Ev.saveLedger ids ∉ t0 := by
    have := goc_no_save env vod.userName pf
    rw [hg] at this
    exact fun ids => this ids
  rcases res with pid | _ | _
  · rcases hb : build_metadata cfg vod with e | m1
    · rw [hb] at h
      simp only [UVRes.mk.injEq] at h
      obtain ⟨-, hL, -, ht⟩ := h
      exact ⟨hL.symm, fun ids => ht ▸ h0 ids⟩
    · rw [hb] at h
      dsimp only at h
      rcases hua : uploadAttempts env cfg vod pid m1 L with ⟨out', L2', t'⟩
      rw [hua] at h
      dsimp only at h
      simp only [UVRes.mk.injEq] at h
      obtain ⟨ho, hL, hpf, ht⟩ := h
      rw [ho] at hua
      obtain ⟨hL2, hsv⟩ := ua_nonsuccess env cfg vod pid m1 L L2' t' out hua hout
      refine ⟨hL.symm.trans hL2, fun ids hmem => ?_⟩
      rw [← ht] at hmem
      rcases List.mem_append.1 hmem with hm | hm
      · exact h0 ids hm
      · exact hsv ids hm
  · simp only [UVRes.mk.injEq] at h
    obtain ⟨-, hL, -, ht⟩ := h
    exact ⟨hL.symm, fun ids => ht ▸ h0 ids⟩
  · simp only [UVRes.mk.injEq] at h
    obtain ⟨-, hL, -, ht⟩ := h
    exact ⟨hL.symm, fun ids => ht ▸ h0 ids⟩

theorem uv_ledger_cases (env : Env) (cfg : Config) (vod : Vod) (L : List (Option Str))
    (pf : PlaylistsFile) {out : UVOut} {L2 : List (Option Str)} {pf2 : PlaylistsFile}
    {tr : List Ev} (h : upload_video env cfg vod L pf = ⟨out, L2, pf2, tr⟩) :
    L2 = L ∨ L2 = L ++ [vod.vodId] := by
  by_cases ho : out = .success
  · subst ho; exact Or.inr (uv_success_shape env cfg vod L pf h).1
  · exact Or.inl (uv_nonsuccess env cfg vod L pf h ho).1

theorem uv_sleep (env : Env) (cfg : Config) (vod : Vod) (L : List (Option Str))
    (pf : PlaylistsFile) {out : UVOut} {L2 : List (Option Str)} {pf2 : PlaylistsFile}
    {tr : List Ev} (s : Nat) (h : upload_video env cfg vod L pf = ⟨out, L2, pf2, tr⟩)
    (hs : Ev.quotaSleep s ∈ tr) :
    out = .quotaExit ∧ s = cfg.quotaWaitHours * 3600 ∧
      tr.getLast? = some (.quotaSleep s) := by
  unfold upload_video at h
  rcases hg : get_or_create_playlist_id env vod.userName pf with ⟨res, pfg, t0⟩
  rw [hg] at h
  dsimp only at h
  have h0 : Ev.quotaSleep s ∉ t0 := by
    have := goc_no_sleep env vod.userName pf s
    rw [hg] at this
    exact this
  rcases res with pid | _ | _
  · rcases hb : build_metadata cfg vod with e | m1
    · rw [hb] at h
      simp only [UVRes.mk.injEq] at h
      obtain ⟨-, -, -, ht⟩ := h
      exact absurd (ht ▸ hs) h0
    · rw [hb] at h
      dsimp only at h
      rcases hua : uploadAttempts env cfg vod pid m1 L with ⟨out', L2', t'⟩
      rw [hua] at h
      dsimp only at h
      simp only [UVRes.mk.injEq] at h
      obtain ⟨ho, hL, hpf, ht⟩ := h
      rw [← ht] at hs
      rcases List.mem_append.1 hs with hm | hm
      · exact absurd hm h0
      · obtain ⟨ho', hsD, hlast⟩ := ua_sleep env cfg vod pid m1 L L2' t' out' s hua hm
        refine ⟨ho.symm.trans ho', hsD, ?_⟩
        rw [← ht, List.getLast?_append, hlast]
        rfl
  · simp only [UVRes.mk.injEq] at h
    obtain ⟨-, -, -, ht⟩ := h
    exact absurd (ht ▸ hs) h0
  · simp only [UVRes.mk.injEq] at h
    obtain ⟨-, -, -, ht⟩ := h
    exact absurd (ht ▸ hs) h0

theorem uv_calls (env : Env) (cfg : Config) (vod : Vod) (L : List (Option Str))
    (pf : PlaylistsFile) {out : UVOut} {L2 : List (Option Str)} {pf2 : PlaylistsFile}
    {tr : List Ev} (h : upload_video env cfg vod L pf = ⟨out, L2, pf2, tr⟩) :
    uploaderCallsOf tr = [] ∨
    ∃ m1 pid, build_metadata cfg vod = .ok m1 ∧
      (uploaderCallsOf tr = [.uploaderCall vod.videoName m1 pid] ∨
        ((uploaderCallsOf tr = [.uploaderCall vod.videoName m1 pid,
            .uploaderCall vod.videoName (retryMetaDateErr vod m1) pid] ∨
          uploaderCallsOf tr = [.uploaderCall vod.videoName m1 pid,
            .uploaderCall vod.videoName (retryMetaGeneric vod m1) pid]) ∧
          (env.uploader vod.videoName m1 pid).returncode ≠ 0 ∧
          quotaSig (env.uploader vod.videoName m1 pid) = false ∧
          authSig (env.uploader vod.videoName m1 pid) = false)) := by
  unfold upload_video at h
  rcases hg : get_or_create_playlist_id env vod.userName pf with ⟨res, pfg, t0⟩
  rw [hg] at h
  dsimp only at h
  have h0 : uploaderCallsOf t0 = [] := by
    have := goc_no_call env vod.userName pf
    rw [hg] at this
    exact this
  rcases res with pid | _ | _
  · rcases hb : build_metadata cfg vod with e | m1
    · rw [hb] at h
      dsimp only at h
      simp only [UVRes.mk.injEq] at h
      obtain ⟨-, -, -, ht⟩ := h
      exact Or.inl (ht ▸ h0)
    · rw [hb] at h
      dsimp only at h
      rcases hua : uploadAttempts env cfg vod pid m1 L with ⟨out', L2', t'⟩
      rw [hua] at h
      dsimp only at h
      simp only [UVRes.mk.injEq] at h
      obtain ⟨ho, hL, hpf, ht⟩ := h
      have hcat : uploaderCallsOf tr = uploaderCallsOf t' := by
        rw [← ht]
        simp only [uploaderCallsOf, List.filter_append]
        rw [show List.filter _ t0 = uploaderCallsOf t0 from rfl, h0]
        rfl
      rcases ua_calls env cfg vod pid m1 L L2' t' out' hua with h1 | ⟨h2, hrc, hq, ha⟩
      · exact Or.inr ⟨m1, pid, rfl, Or.inl (hcat ▸ h1)⟩
      · exact Or.inr ⟨m1, pid, rfl, Or.inr ⟨by rw [hcat]; exact h2, hrc, hq, ha⟩⟩
  · simp only [UVRes.mk.injEq] at h
    obtain ⟨-, -, -, ht⟩ := h
    exact Or.inl (ht ▸ h0)
  · simp only [UVRes.mk.injEq] at h
    obtain ⟨-, -, -, ht⟩ := h
    exact Or.inl (ht ▸ h0)

/-! ### Lemmas about the candidate loop -/

theorem loop_cons_skip (env : Env) (cfg : Config) (v : Vod) (rest : List Vod)
    (st : RunState) (h : v.vodId ∈ st.ledger) :
    loop env cfg (v :: rest) st = loop env cfg rest st := by
  simp only [loop]
  rw [if_pos h]

theorem loop_cons_break (env : Env) (cfg : Config) (v : Vod) (rest : List Vod)
    (st : RunState) (h1 : v.vodId ∉ st.ledger)
    (h2 : cfg.maxUploads ≤ st.uploadsDone ∧ st.currentUser ≠ some v.userName) :
    loop env cfg (v :: rest) st =
      ⟨st.ledger, st.pf, st.uploadsDone, [], [], false⟩ := by
  simp only [loop]
  rw [if_neg h1, if_pos h2]

theorem loop_cons_success (env : Env) (cfg : Config) (v : Vod) (rest : List Vod)
    (st : RunState) (h1 : v.vodId ∉ st.ledger)
    (h2 : ¬(cfg.maxUploads ≤ st.uploadsDone ∧ st.currentUser ≠ some v.userName))
    {L2 : List (Option Str)} {pf2 : PlaylistsFile} {tr : List Ev}
    (hu : upload_video env cfg v st.ledger st.pf = ⟨.success, L2, pf2, tr⟩) :
    loop env cfg (v :: rest) st =
      ⟨(loop env cfg rest ⟨L2, pf2, st.uploadsDone + 1, some v.userName⟩).ledger,
        (loop env cfg rest ⟨L2, pf2, st.uploadsDone + 1, some v.userName⟩).pf,
        (loop env cfg rest ⟨L2, pf2, st.uploadsDone + 1, some v.userName⟩).uploadsDone,
        tr ++ (loop env cfg rest ⟨L2, pf2, st.uploadsDone + 1, some v.userName⟩).trace,
        (v, st.uploadsDone, st.currentUser) ::
          (loop env cfg rest ⟨L2, pf2, st.uploadsDone + 1, some v.userName⟩).attempts,
        (loop env cfg rest ⟨L2, pf2, st.uploadsDone + 1, some v.userName⟩).processedAll⟩ := by
  simp only [loop]
  rw [if_neg h1, if_neg h2, hu]

theorem loop_cons_failed (env : Env) (cfg : Config) (v : Vod) (rest : List Vod)
    (st : RunState) (h1 : v.vodId ∉ st.ledger)
    (h2 : ¬(cfg.maxUploads ≤ st.uploadsDone ∧ st.currentUser ≠ some v.userName))
    {L2 : List (Option Str)} {pf2 : PlaylistsFile} {tr : List Ev}
    (hu : upload_video env cfg v st.ledger st.pf = ⟨.failed, L2, pf2, tr⟩) :
    loop env cfg (v :: rest) st =
      ⟨(loop env cfg rest ⟨L2, pf2, st.uploadsDone, st.currentUser⟩).ledger,
        (loop env cfg rest ⟨L2, pf2, st.uploadsDone, st.currentUser⟩).pf,
        (loop env cfg rest ⟨L2, pf2, st.uploadsDone, st.currentUser⟩).uploadsDone,
        tr ++ (loop env cfg rest ⟨L2, pf2, st.uploadsDone, st.currentUser⟩).trace,
        (v, st.uploadsDone, st.currentUser) ::
          (loop env cfg rest ⟨L2, pf2, st.uploadsDone, st.currentUser⟩).attempts,
        (loop env cfg rest ⟨L2, pf2, st.uploadsDone, st.currentUser⟩).processedAll⟩ := by
  simp only [loop]
  rw [if_neg h1, if_neg h2, hu]

theorem loop_cons_quota (env : Env) (cfg : Config) (v : Vod) (rest : List Vod)
    (st : RunState) (h1 : v.vodId ∉ st.ledger)
    (h2 : ¬(cfg.maxUploads ≤ st.uploadsDone ∧ st.currentUser ≠ some v.userName))
    {L2 : List (Option Str)} {pf2 : PlaylistsFile} {tr : List Ev}
    (hu : upload_video env cfg v st.ledger st.pf = ⟨.quotaExit, L2, pf2, tr⟩) :
    loop env cfg (v :: rest) st =
      ⟨L2, pf2, st.uploadsDone, tr, [(v, st.uploadsDone, st.currentUser)], false⟩ := by
  simp only [loop]
  rw [if_neg h1, if_neg h2, hu]

theorem loop_cons_crashed (env : Env) (cfg : Config) (v : Vod) (rest : List Vod)
    (st : RunState) (h1 : v.vodId ∉ st.ledger)
    (h2 : ¬(cfg.maxUploads ≤ st.uploadsDone ∧ st.currentUser ≠ some v.userName))
    {L2 : List (Option Str)} {pf2 : PlaylistsFile} {tr : List Ev}
    (hu : upload_video env cfg v st.ledger st.pf = ⟨.crashed, L2, pf2, tr⟩) :
    loop env cfg (v :: rest) st =
      ⟨L2, pf2, st.uploadsDone, tr, [(v, st.uploadsDone, st.currentUser)], false⟩ := by
  simp only [loop]
  rw [if_neg h1, if_neg h2, hu]

theorem loop_attempts_sublist (env : Env) (cfg : Config) :
    ∀ (vods : List Vod) (st : RunState),
      ((loop env cfg vods st).attempts.map (fun r => r.1)).Sublist vods := by
  intro vods
  induction vods with
  | nil => intro st; simp [loop]
  | cons v rest ih =>
    intro st
    simp only [loop]
    split
    · exact List.Sublist.cons v (ih st)
    · split
      · simp
      · rcases hu : upload_video env cfg v st.ledger st.pf with ⟨out, L2, pf2, tr⟩
        cases out
        · exact List.Sublist.cons₂ v (ih _)
        · exact List.Sublist.cons₂ v (ih _)
        · simp
        · simp

theorem loop_ledger_mono (env : Env) (cfg : Config) :
    ∀ (vods : List Vod) (st : RunState) (x : Option Str),
      x ∈ st.ledger → x ∈ (loop env cfg vods st).ledger := by
  intro vods
  induction vods with
  | nil => intro st x hx; simpa [loop] using hx
  | cons v rest ih =>
    intro st x hx
    simp only [loop]
    split
    · exact ih st x hx
    · split
      · exact hx
      · rcases hu : upload_video env cfg v st.ledger st.pf with ⟨out, L2, pf2, tr⟩
        have hL2 : x ∈ L2 := by
          rcases uv_ledger_cases env cfg v st.ledger st.pf hu with h1 | h1 <;>
            (subst h1; simp [hx])
        cases out
        · exact ih _ x hL2
        · exact ih _ x hL2
        · exact hL2
        · exact hL2

theorem loop_attempts_fresh (env : Env) (cfg : Config) :
    ∀ (vods : List Vod) (st : RunState),
      ∀ rec ∈ (loop env cfg vods st).attempts, rec.1.vodId ∉ st.ledger := by
  intro vods
  induction vods with
  | nil => intro st rec hrec; simp [loop] at hrec
  | cons v rest ih =>
    intro st rec hrec
    simp only [loop] at hrec
    split at hrec
    · exact ih st rec hrec
    · split at hrec
      · simp at hrec
      · rename_i hmem hcap
        rcases hu : upload_video env cfg v st.ledger st.pf with ⟨out, L2, pf2, tr⟩
        rw [hu] at hrec
        have hsub : st.ledger = L2 ∨ st.ledger ++ [v.vodId] = L2 := by
          rcases uv_ledger_cases env cfg v st.ledger st.pf hu with h1 | h1 <;>
            [exact Or.inl h1.symm; exact Or.inr h1.symm]
        have hstep : ∀ st2 : RunState, st2.ledger = L2 →
            rec ∈ (loop env cfg rest st2).attempts → rec.1.vodId ∉ st.ledger := by
          intro st2 hst2 hr
          have := ih st2 rec hr
          rw [hst2] at this
          intro hin
          rcases hsub with h1 | h1 <;> (apply this; rw [← h1]; simp [hin])
        cases out
        · simp only [List.mem_cons] at hrec
          rcases hrec with hrec | hrec
          · subst hrec; exact hmem
          · exact hstep _ rfl hrec
        · simp only [List.mem_cons] at hrec
          rcases hrec with hrec | hrec
          · subst hrec; exact hmem
          · exact hstep _ rfl hrec
        · simp at hrec; subst hrec; exact hmem
        · simp at hrec; subst hrec; exact hmem

theorem loop_cap (env : Env) (cfg : Config) :
    ∀ (vods : List Vod) (st : RunState),
      ∀ rec ∈ (loop env cfg vods st).attempts,
        rec.2.1 < cfg.maxUploads ∨ rec.2.2 = some rec.1.userName := by
  intro vods
  induction vods with
  | nil => intro st rec hrec; simp [loop] at hrec
  | cons v rest ih =>
    intro st rec hrec
    simp only [loop] at hrec
    split at hrec
    · exact ih st rec hrec
    · split at hrec
      · simp at hrec
      · rename_i hmem hcap
        have hc : st.uploadsDone < cfg.maxUploads ∨ st.currentUser = some v.userName := by
          by_cases h1 : cfg.maxUploads ≤ st.uploadsDone
          · right
            by_contra h2
            exact hcap ⟨h1, h2⟩
          · left; omega
        rcases hu : upload_video env cfg v st.ledger st.pf with ⟨out, L2, pf2, tr⟩
        rw [hu] at hrec
        cases out
        · simp only [List.mem_cons] at hrec
          rcases hrec with hrec | hrec
          · subst hrec; exact hc
          · exact ih _ rec hrec
        · simp only [List.mem_cons] at hrec
          rcases hrec with hrec | hrec
          · subst hrec; exact hc
          · exact ih _ rec hrec
        · simp at hrec; subst hrec; exact hc
        · simp at hrec; subst hrec; exact hc

theorem loop_sleep (env : Env) (cfg : Config) :
    ∀ (vods : List Vod) (st : RunState) (s : Nat),
      Ev.quotaSleep s ∈ (loop env cfg vods st).trace →
        s = cfg.quotaWaitHours * 3600 ∧
        (loop env cfg vods st).trace.getLast? = some (.quotaSleep s) ∧
        (loop env cfg vods st).processedAll = false := by
  intro vods
  induction vods with
  | nil => intro st s hs; simp [loop] at hs
  | cons v rest ih =>
    intro st s hs
    by_cases hm : v.vodId ∈ st.ledger
    · rw [loop_cons_skip env cfg v rest st hm] at hs ⊢
      exact ih st s hs
    · by_cases hcap : cfg.maxUploads ≤ st.uploadsDone ∧ st.currentUser ≠ some v.userName
      · rw [loop_cons_break env cfg v rest st hm hcap] at hs
        simp at hs
      · rcases hu : upload_video env cfg v st.ledger st.pf with ⟨out, L2, pf2, tr⟩
        cases out
        · rw [loop_cons_success env cfg v rest st hm hcap hu] at hs ⊢
          simp only [List.mem_append] at hs
          rcases hs with hsm | hsm
          · exact absurd (uv_sleep env cfg v st.ledger st.pf s hu hsm).1 (by decide)
          · obtain ⟨hsD, hlast, hpa⟩ := ih _ s hsm
            refine ⟨hsD, ?_, hpa⟩
            dsimp only
            rw [List.getLast?_append, hlast]
            rfl
        · rw [loop_cons_failed env cfg v rest st hm hcap hu] at hs ⊢
          simp only [List.mem_append] at hs
          rcases hs with hsm | hsm
          · exact absurd (uv_sleep env cfg v st.ledger st.pf s hu hsm).1 (by decide)
          · obtain ⟨hsD, hlast, hpa⟩ := ih _ s hsm
            refine ⟨hsD, ?_, hpa⟩
            dsimp only
            rw [List.getLast?_append, hlast]
            rfl
        · rw [loop_cons_quota env cfg v rest st hm hcap hu] at hs ⊢
          obtain ⟨-, hsD, hlast⟩ := uv_sleep env cfg v st.ledger st.pf s hu hs
          exact ⟨hsD, hlast, rfl⟩
        · rw [loop_cons_crashed env cfg v rest st hm hcap hu] at hs ⊢
          exact absurd (uv_sleep env cfg v st.ledger st.pf s hu hs).1 (by decide)

theorem loop_failed_continues (env : Env) (cfg : Config) (v : Vod) (rest : List Vod)
    (st : RunState) (hmem : v.vodId ∉ st.ledger)
    (hcap : ¬(cfg.maxUploads ≤ st.uploadsDone ∧ st.currentUser ≠ some v.userName))
    {L2 : List (Option Str)} {pf2 : PlaylistsFile} {tr : List Ev}
    (hu : upload_video env cfg v st.ledger st.pf = ⟨.failed, L2, pf2, tr⟩) :
    (loop env cfg (v :: rest) st).attempts =
      (v, st.uploadsDone, st.currentUser) ::
        (loop env cfg rest ⟨L2, pf2, st.uploadsDone, st.currentUser⟩).attempts ∧
    (loop env cfg (v :: rest) st).processedAll =
      (loop env cfg rest ⟨L2, pf2, st.uploadsDone, st.currentUser⟩).processedAll := by
  simp only [loop]
  rw [if_neg hmem, if_neg hcap, hu]
  exact ⟨rfl, rfl⟩

/-! ### Determinism of outcomes across runs -/

/-- The playlist id an owner resolves to, as determined by the initial
playlists object `m0` and the remote API alone. -/
def canonRes (env : Env) (m0 : List (Str × Str)) (u : Str) : Option Str :=
  match plLookup m0 u with
  | some p => some p
  | none => env.createPlaylist u

/-- Invariant of every playlists state reachable from an initial object `m0`:
still an object, containing `m0`'s entries, every entry agreeing with
`canonRes`. -/
def PlInv (env : Env) (m0 : List (Str × Str)) : PlaylistsFile → Prop
  | .arr _ => False
  | .obj m => (∀ u p, plLookup m0 u = some p → plLookup m u = some p) ∧
      (∀ u p, plLookup m u = some p → canonRes env m0 u = some p)

theorem plLookup_append (m l2 : List (Str × Str)) (u : Str) :
    plLookup (m ++ l2) u =
      match plLookup m u with
      | some p => some p
      | none => plLookup l2 u := by
  induction m with
  | nil => rfl
  | cons kv rest ih =>
    rcases kv with ⟨k, v⟩
    by_cases hk : k = u
    · simp [plLookup, hk]
    · simp [plLookup, hk, ih]

theorem plInv_init (env : Env) (m0 : List (Str × Str)) : PlInv env m0 (.obj m0) := by
  refine ⟨fun u p h => h, fun u p h => ?_⟩
  unfold canonRes
  rw [h]

theorem goc_obj_hit (env : Env) (u : Str) (m : List (Str × Str)) {p : Str}
    (hl : plLookup m u = some p) :
    get_or_create_playlist_id env u (.obj m) = (.ok p, .obj m, []) := by
  simp only [get_or_create_playlist_id, hl]

theorem goc_obj_miss_created (env : Env) (u : Str) (m : List (Str × Str)) {pid : Str}
    (hl : plLookup m u = none) (hcp : env.createPlaylist u = some pid) :
    get_or_create_playlist_id env u (.obj m) =
      (.ok pid, .obj (m ++ [(u, pid)]),
        [.createPlaylistCall (u ++ str " VODs"), .savePlaylists]) := by
  simp only [get_or_create_playlist_id, hl, hcp]

theorem goc_obj_miss_failed (env : Env) (u : Str) (m : List (Str × Str))
    (hl : plLookup m u = none) (hcp : env.createPlaylist u = none) :
    get_or_create_playlist_id env u (.obj m) =
      (.failure, .obj m, [.createPlaylistCall (u ++ str " VODs")]) := by
  simp only [get_or_create_playlist_id, hl, hcp]

theorem goc_under_inv (env : Env) (u : Str) (pf : PlaylistsFile)
    (m0 : List (Str × Str)) (hinv : PlInv env m0 pf) :
    ((get_or_create_playlist_id env u pf).1 =
      match canonRes env m0 u with
      | some p => PlResult.ok p
      | none => PlResult.failure) ∧
    PlInv env m0 (get_or_create_playlist_id env u pf).2.1 := by
  rcases pf with l | m
  · exact absurd hinv (by simp [PlInv])
  · obtain ⟨hmono, hsound⟩ := hinv
    rcases hl : plLookup m u with _ | p
    · have h0 : plLookup m0 u = none := by
        rcases h0 : plLookup m0 u with _ | q
        · rfl
        · have := hmono u q h0; rw [hl] at this; cases this
      have hc : canonRes env m0 u = env.createPlaylist u := by
        unfold canonRes; rw [h0]
      rcases hcp : env.createPlaylist u with _ | pid
      · rw [goc_obj_miss_failed env u m hl hcp, hc, hcp]
        exact ⟨rfl, hmono, hsound⟩
      · rw [goc_obj_miss_created env u m hl hcp, hc, hcp]
        refine ⟨rfl, fun w q hq => ?_, fun w q hq => ?_⟩
        · rw [plLookup_append, hmono w q hq]
        · rw [plLookup_append] at hq
          rcases hw : plLookup m w with _ | q2
          · rw [hw] at hq
            by_cases hwu : u = w
            · subst hwu
              simp [plLookup] at hq
              rw [hc, hcp, hq]
            · simp only [plLookup, if_neg hwu] at hq
              cases hq
          · rw [hw] at hq
            injection hq with hq2
            exact hq2 ▸ hsound w q2 hw
    · rw [goc_obj_hit env u m hl, hsound u p hl]
      exact ⟨rfl, hmono, hsound⟩

theorem ua_out_indep (env : Env) (cfg : Config) (vod : Vod) (pid : Str) (m1 : Meta)
    (L L2 : List (Option Str)) :
    (uploadAttempts env cfg vod pid m1 L).1 = (uploadAttempts env cfg vod pid m1 L2).1 := by
  simp only [uploadAttempts]
  repeat' split <;> try (first | rfl | simp_all)

theorem uv_pf_eq (env : Env) (cfg : Config) (vod : Vod) (L : List (Option Str))
    (pf : PlaylistsFile) {out : UVOut} {L2 : List (Option Str)} {pf2 : PlaylistsFile}
    {tr : List Ev} (h : upload_video env cfg vod L pf = ⟨out, L2, pf2, tr⟩) :
    pf2 = (get_or_create_playlist_id env vod.userName pf).2.1 := by
  unfold upload_video at h
  rcases hg : get_or_create_playlist_id env vod.userName pf with ⟨res, pfg, t0⟩
  rw [hg] at h
  dsimp only at h ⊢
  rcases res with pid | _ | _
  · rcases hb : build_metadata cfg vod with e | m1
    · rw [hb] at h
      dsimp only at h
      simp only [UVRes.mk.injEq] at h
      exact h.2.2.1.symm
    · rw [hb] at h
      dsimp only at h
      rcases hua : uploadAttempts env cfg vod pid m1 L with ⟨out', L2', t'⟩
      rw [hua] at h
      dsimp only at h
      simp only [UVRes.mk.injEq] at h
      exact h.2.2.1.symm
  · simp only [UVRes.mk.injEq] at h
    exact h.2.2.1.symm
  · simp only [UVRes.mk.injEq] at h
    exact h.2.2.1.symm

theorem uv_pf_inv (env : Env) (cfg : Config) (vod : Vod) (L : List (Option Str))
    (pf : PlaylistsFile) (m0 : List (Str × Str)) (hinv : PlInv env m0 pf)
    {out : UVOut} {L2 : List (Option Str)} {pf2 : PlaylistsFile} {tr : List Ev}
    (h : upload_video env cfg vod L pf = ⟨out, L2, pf2, tr⟩) :
    PlInv env m0 pf2 := by
  rw [uv_pf_eq env cfg vod L pf h]
  exact (goc_under_inv env vod.userName pf m0 hinv).2

theorem uv_out_under_inv (env : Env) (cfg : Config) (vod : Vod)
    (L L2 : List (Option Str)) (pf pf2 : PlaylistsFile) (m0 : List (Str × Str))
    (h1 : PlInv env m0 pf) (h2 : PlInv env m0 pf2) :
    (upload_video env cfg vod L pf).out = (upload_video env cfg vod L2 pf2).out := by
  unfold upload_video
  obtain ⟨hr1, -⟩ := goc_under_inv env vod.userName pf m0 h1
  obtain ⟨hr2, -⟩ := goc_under_inv env vod.userName pf2 m0 h2
  rcases hgA : get_or_create_playlist_id env vod.userName pf with ⟨resA, pfA, tA⟩
  rcases hgB : get_or_create_playlist_id env vod.userName pf2 with ⟨resB, pfB, tB⟩
  rw [hgA] at hr1
  rw [hgB] at hr2
  dsimp only at hr1 hr2 ⊢
  have hres : resA = resB := hr1.trans hr2.symm
  subst hres
  rcases resA with pid | _ | _
  · rcases hb : build_metadata cfg vod with e | m1
    · rfl
    · dsimp only
      rcases huaA : uploadAttempts env cfg vod pid m1 L with ⟨oA, lA, tA2⟩
      rcases huaB : uploadAttempts env cfg vod pid m1 L2 with ⟨oB, lB, tB2⟩
      have := ua_out_indep env cfg vod pid m1 L L2
      rw [huaA, huaB] at this
      exact this
  · rfl
  · rfl

/-- The outcome a candidate has in any run whose playlists state satisfies
`PlInv env m0`. -/
def outcomePure (env : Env) (cfg : Config) (m0 : List (Str × Str)) (vod : Vod) : UVOut :=
  (upload_video env cfg vod [] (.obj m0)).out

theorem uv_out_canon (env : Env) (cfg : Config) (vod : Vod) (L : List (Option Str))
    (pf : PlaylistsFile) (m0 : List (Str × Str)) (hinv : PlInv env m0 pf)
    {out : UVOut} {L2 : List (Option Str)} {pf2 : PlaylistsFile} {tr : List Ev}
    (h : upload_video env cfg vod L pf = ⟨out, L2, pf2, tr⟩) :
    out = outcomePure env cfg m0 vod := by
  have := uv_out_under_inv env cfg vod L [] pf (.obj m0) m0 hinv (plInv_init env m0)
  rw [h] at this
  exact this

theorem loop_pf_inv (env : Env) (cfg : Config) (m0 : List (Str × Str)) :
    ∀ (vods : List Vod) (st : RunState), PlInv env m0 st.pf →
      PlInv env m0 (loop env cfg vods st).pf := by
  intro vods
  induction vods with
  | nil => intro st hinv; simpa [loop] using hinv
  | cons v rest ih =>
    intro st hinv
    by_cases hm : v.vodId ∈ st.ledger
    · rw [loop_cons_skip env cfg v rest st hm]
      exact ih st hinv
    · by_cases hcap : cfg.maxUploads ≤ st.uploadsDone ∧ st.currentUser ≠ some v.userName
      · rw [loop_cons_break env cfg v rest st hm hcap]
        exact hinv
      · rcases hu : upload_video env cfg v st.ledger st.pf with ⟨out, L2, pf2, tr⟩
        have hinv2 : PlInv env m0 pf2 := uv_pf_inv env cfg v st.ledger st.pf m0 hinv hu
        cases out
        · rw [loop_cons_success env cfg v rest st hm hcap hu]
          exact ih _ hinv2
        · rw [loop_cons_failed env cfg v rest st hm hcap hu]
          exact ih _ hinv2
        · rw [loop_cons_quota env cfg v rest st hm hcap hu]
          exact hinv2
        · rw [loop_cons_crashed env cfg v rest st hm hcap hu]
          exact hinv2

theorem loop_outcomes (env : Env) (cfg : Config) (m0 : List (Str × Str)) :
    ∀ (vods : List Vod) (st : RunState), PlInv env m0 st.pf →
      (loop env cfg vods st).processedAll = true →
      ∀ v ∈ vods, v.vodId ∈ (loop env cfg vods st).ledger ∨
        outcomePure env cfg m0 v = .failed := by
  intro vods
  induction vods with
  | nil => intro st hinv hpa v hv; simp at hv
  | cons v rest ih =>
    intro st hinv hpa w hw
    by_cases hm : v.vodId ∈ st.ledger
    · rw [loop_cons_skip env cfg v rest st hm] at hpa ⊢
      rcases List.mem_cons.1 hw with hw1 | hw1
      · subst hw1
        exact Or.inl (loop_ledger_mono env cfg rest st w.vodId hm)
      · exact ih st hinv hpa w hw1
    · by_cases hcap : cfg.maxUploads ≤ st.uploadsDone ∧ st.currentUser ≠ some v.userName
      · rw [loop_cons_break env cfg v rest st hm hcap] at hpa
        simp at hpa
      · rcases hu : upload_video env cfg v st.ledger st.pf with ⟨out, L2, pf2, tr⟩
        have hinv2 : PlInv env m0 pf2 := uv_pf_inv env cfg v st.ledger st.pf m0 hinv hu
        cases out
        · rw [loop_cons_success env cfg v rest st hm hcap hu] at hpa ⊢
          dsimp only at hpa ⊢
          rcases List.mem_cons.1 hw with hw1 | hw1
          · subst hw1
            have hid : w.vodId ∈ L2 := by
              rw [(uv_success_shape env cfg w st.ledger st.pf hu).1]
              simp
            exact Or.inl (loop_ledger_mono env cfg rest _ w.vodId hid)
          · exact ih _ hinv2 hpa w hw1
        · rw [loop_cons_failed env cfg v rest st hm hcap hu] at hpa ⊢
          dsimp only at hpa ⊢
          rcases List.mem_cons.1 hw with hw1 | hw1
          · subst hw1
            exact Or.inr (uv_out_canon env cfg w st.ledger st.pf m0 hinv hu).symm
          · exact ih _ hinv2 hpa w hw1
        · rw [loop_cons_quota env cfg v rest st hm hcap hu] at hpa
          simp at hpa
        · rw [loop_cons_crashed env cfg v rest st hm hcap hu] at hpa
          simp at hpa

theorem loop_no_new (env : Env) (cfg : Config) (m0 : List (Str × Str)) :
    ∀ (vods : List Vod) (st : RunState), PlInv env m0 st.pf →
      (∀ v ∈ vods, v.vodId ∈ st.ledger ∨ outcomePure env cfg m0 v = .failed) →
      (loop env cfg vods st).ledger = st.ledger := by
  intro vods
  induction vods with
  | nil => intro st hinv hyp; simp [loop]
  | cons v rest ih =>
    intro st hinv hyp
    by_cases hm : v.vodId ∈ st.ledger
    · rw [loop_cons_skip env cfg v rest st hm]
      exact ih st hinv (fun w hw => hyp w (List.mem_cons_of_mem v hw))
    · by_cases hcap : cfg.maxUploads ≤ st.uploadsDone ∧ st.currentUser ≠ some v.userName
      · rw [loop_cons_break env cfg v rest st hm hcap]
      · have hvout : outcomePure env cfg m0 v = .failed := by
          rcases hyp v (List.mem_cons_self v rest) with h1 | h1
          · exact absurd h1 hm
          · exact h1
        rcases hu : upload_video env cfg v st.ledger st.pf with ⟨out, L2, pf2, tr⟩
        have hout : out = .failed :=
          (uv_out_canon env cfg v st.ledger st.pf m0 hinv hu).trans hvout
        subst hout
        have hinv2 : PlInv env m0 pf2 := uv_pf_inv env cfg v st.ledger st.pf m0 hinv hu
        have hL2 : L2 = st.ledger := (uv_nonsuccess env cfg v st.ledger st.pf hu (by simp)).1
        rw [loop_cons_failed env cfg v rest st hm hcap hu]
        dsimp only
        rw [ih ⟨L2, pf2, st.uploadsDone, st.currentUser⟩ hinv2
          (fun w hw => by
            rcases hyp w (List.mem_cons_of_mem v hw) with h1 | h1
            · exact Or.inl (by rw [hL2] at *; exact h1)
            · exact Or.inr h1)]
        exact hL2

theorem uv_arr (env : Env) (cfg : Config) (vod : Vod) (L : List (Option Str))
    (l : List Str) :
    ∃ tr, upload_video env cfg vod L (.arr l) = ⟨.failed, L, .arr l, tr⟩ ∨
      upload_video env cfg vod L (.arr l) = ⟨.crashed, L, .arr l, tr⟩ := by
  by_cases hc : vod.userName ∈ l
  · refine ⟨[], Or.inr ?_⟩
    unfold upload_video get_or_create_playlist_id
    dsimp only
    rw [if_pos hc]
  · refine ⟨[.createPlaylistCall (vod.userName ++ str " VODs")], Or.inl ?_⟩
    unfold upload_video get_or_create_playlist_id
    dsimp only
    rw [if_neg hc]

theorem loop_arr (env : Env) (cfg : Config) :
    ∀ (vods : List Vod) (st : RunState) (l : List Str), st.pf = .arr l →
      (loop env cfg vods st).ledger = st.ledger := by
  intro vods
  induction vods with
  | nil => intro st l hpf; simp [loop]
  | cons v rest ih =>
    intro st l hpf
    by_cases hm : v.vodId ∈ st.ledger
    · rw [loop_cons_skip env cfg v rest st hm]
      exact ih st l hpf
    · by_cases hcap : cfg.maxUploads ≤ st.uploadsDone ∧ st.currentUser ≠ some v.userName
      · rw [loop_cons_break env cfg v rest st hm hcap]
      · obtain ⟨tr, harr⟩ := uv_arr env cfg v st.ledger l
        rcases harr with harr | harr
        · have harr2 : upload_video env cfg v st.ledger st.pf =
              ⟨.failed, st.ledger, .arr l, tr⟩ := by rw [hpf]; exact harr
          rw [loop_cons_failed env cfg v rest st hm hcap harr2]
          exact ih ⟨st.ledger, .arr l, st.uploadsDone, st.currentUser⟩ l rfl
        · have harr2 : upload_video env cfg v st.ledger st.pf =
              ⟨.crashed, st.ledger, .arr l, tr⟩ := by rw [hpf]; exact harr
          rw [loop_cons_crashed env cfg v rest st hm hcap harr2]

theorem loop_arr_pf (env : Env) (cfg : Config) :
    ∀ (vods : List Vod) (st : RunState) (l : List Str), st.pf = .arr l →
      (loop env cfg vods st).pf = st.pf := by
  intro vods
  induction vods with
  | nil => intro st l hpf; simp [loop]
  | cons v rest ih =>
    intro st l hpf
    by_cases hm : v.vodId ∈ st.ledger
    · rw [loop_cons_skip env cfg v rest st hm]
      exact ih st l hpf
    · by_cases hcap : cfg.maxUploads ≤ st.uploadsDone ∧ st.currentUser ≠ some v.userName
      · rw [loop_cons_break env cfg v rest st hm hcap]
      · obtain ⟨tr, harr⟩ := uv_arr env cfg v st.ledger l
        rcases harr with harr | harr
        · have harr2 : upload_video env cfg v st.ledger st.pf =
              ⟨.failed, st.ledger, .arr l, tr⟩ := by rw [hpf]; exact harr
          rw [loop_cons_failed env cfg v rest st hm hcap harr2]
          dsimp only
          rw [ih ⟨st.ledger, .arr l, st.uploadsDone, st.currentUser⟩ l rfl]
          exact hpf.symm
        · have harr2 : upload_video env cfg v st.ledger st.pf =
              ⟨.crashed, st.ledger, .arr l, tr⟩ := by rw [hpf]; exact harr
          rw [loop_cons_crashed env cfg v rest st hm hcap harr2]
          exact hpf.symm

/-! ### Lemmas about title cleaning -/

/-- The cleaning part of `clean_title` before any truncation. -/
def cleanedCore (t : Str) : Str := pyStrip (removeChar '⭐' (replaceChar '_' ' ' t))

theorem rsplitHead_length_le : ∀ s : Str, (rsplitHead s).length ≤ s.length := by
  intro s
  induction s with
  | nil => simp [rsplitHead]
  | cons c cs ih =>
    simp only [rsplitHead]
    by_cases h1 : ' ' ∈ cs
    · rw [if_pos h1]
      simpa using ih
    · rw [if_neg h1]
      by_cases h2 : c = ' '
      · rw [if_pos h2]; simp
      · rw [if_neg h2]

theorem rsplitHead_no_space : ∀ s : Str, ' ' ∉ s → rsplitHead s = s := by
  intro s hs
  cases s with
  | nil => rfl
  | cons c cs =>
    have h1 : ' ' ∉ cs := fun h => hs (List.mem_cons_of_mem c h)
    have h2 : ¬(c = ' ') := fun h => hs (h ▸ List.mem_cons_self c cs)
    simp only [rsplitHead, if_neg h1]
    rw [if_neg h2]

theorem rsplitHead_boundary : ∀ s : Str, ' ' ∈ s →
    s[(rsplitHead s).length]? = some ' ' := by
  intro s
  induction s with
  | nil => intro h; simp at h
  | cons c cs ih =>
    intro h
    by_cases h1 : ' ' ∈ cs
    · simp only [rsplitHead, if_pos h1, List.length_cons]
      simpa using ih h1
    · have h2 : c = ' ' := by
        rcases List.mem_cons.1 h with h3 | h3
        · exact h3.symm
        · exact absurd h3 h1
      simp only [rsplitHead, if_neg h1, if_pos h2, List.length_nil]
      simp [h2]

theorem clean_title_eq (t : Str) :
    clean_title t = if 100 < (cleanedCore t).length
      then rsplitHead ((cleanedCore t).take 100) else cleanedCore t := rfl

theorem clean_title_spec (t : Str) :
    (clean_title t).length ≤ 100 ∧
    (clean_title t = cleanedCore t ∨
      (cleanedCore t)[(clean_title t).length]? = some ' ' ∨
      (clean_title t = (cleanedCore t).take 100 ∧ ' ' ∉ (cleanedCore t).take 100)) := by
  rw [clean_title_eq]
  by_cases hlen : 100 < (cleanedCore t).length
  · rw [if_pos hlen]
    have htake : ((cleanedCore t).take 100).length = 100 := by
      rw [List.length_take]
      omega
    have hle : (rsplitHead ((cleanedCore t).take 100)).length ≤ 100 := by
      have := rsplitHead_length_le ((cleanedCore t).take 100)
      omega
    refine ⟨hle, ?_⟩
    by_cases hsp : ' ' ∈ (cleanedCore t).take 100
    · have hb := rsplitHead_boundary ((cleanedCore t).take 100) hsp
      have hlt : (rsplitHead ((cleanedCore t).take 100)).length < 100 := by
        rcases Nat.lt_or_ge (rsplitHead ((cleanedCore t).take 100)).length 100 with h | h
        · exact h
        · rw [List.getElem?_eq_none
            (show ((cleanedCore t).take 100).length ≤
              (rsplitHead ((cleanedCore t).take 100)).length by omega)] at hb
          cases hb
      right; left
      rw [← List.getElem?_take_of_lt hlt]
      exact hb
    · right; right
      exact ⟨rsplitHead_no_space _ hsp, hsp⟩
  · rw [if_neg hlen]
    exact ⟨by omega, Or.inl rfl⟩

/-! ### Concrete fixtures for witnesses and counterexamples -/

/-- The example configuration plus a 24-hour quota wait. -/
def cfgD : Config := { quotaWaitHours := 24 }

/-- A configuration with a per-run cap of one upload. -/
def cfgOne : Config := { maxUploads := 1, quotaWaitHours := 24 }

/-- Environment in which every upload succeeds. -/
def envOk : Env := ⟨fun _ _ _ => ⟨0, []⟩, fun _ => some (str "PL")⟩

/-- Environment whose uploader exits 0 while printing an auth marker. -/
def envAuthZero : Env := ⟨fun _ _ _ => ⟨0, str "invalid_grant"⟩, fun _ => some (str "PL")⟩

/-- Environment whose uploader always reports quota exhaustion. -/
def envQuota : Env := ⟨fun _ _ _ => ⟨1, str "quotaExceeded"⟩, fun _ => some (str "PL")⟩

/-- Environment whose uploader always fails with an unclassified error. -/
def envFailAll : Env := ⟨fun _ _ _ => ⟨1, []⟩, fun _ => some (str "PL")⟩

/-- Environment that rejects metadata carrying a recordingDate with a
date-parse diagnostic and accepts it once the date is stripped. -/
def envDateRetry : Env :=
  ⟨fun _ m _ => if m.recordingDate.isSome
      then ⟨1, str "error parsing file: parsing time"⟩ else ⟨0, []⟩,
    fun _ => some (str "PL")⟩

def vodA1 : Vod :=
  { videoName := str "2024-01-01 t [1]-video.mp4", vodId := some (str "1")
    userName := str "a", startedAt := str "s1", info := {} }

def vodA2 : Vod :=
  { videoName := str "2024-01-02 t [2]-video.mp4", vodId := some (str "2")
    userName := str "a", startedAt := str "s2", info := {} }

def vodB1 : Vod :=
  { videoName := str "2024-01-03 t [3]-video.mp4", vodId := some (str "3")
    userName := str "b", startedAt := str "s3", info := {} }

/-- A playlists object that already maps both test owners. -/
def pfW : PlaylistsFile := .obj [(str "a", str "PA"), (str "b", str "PB")]

/-- The metadata `build_metadata` synthesizes for `vodA1` under `cfgD`. -/
def mA1 : Meta :=
  (build_metadata cfgD vodA1).toOption.getD
    { title := [], description := [], tags := [], language := [], thumbnail := [],
      privacy := [] }

def infoC6 : Info :=
  { started_at := some (str "2024-03-02T10:00:00Z"), title := some (str "Big_Win ⭐") }

/-- The scenario candidate of the specification: sidecar date and title,
media filename `2024-03-02 Big_Win [998877].mp4`, owner `alice`. -/
def vodC6 : Vod :=
  { videoName := str "2024-03-02 Big_Win [998877].mp4", vodId := some (str "998877")
    userName := str "alice", startedAt := str "2024-03-02T10:00:00Z", info := infoC6 }

/-- Same filename shape but an empty sidecar: title must come from the
filename, the date prefix from the leading filename token. -/
def vodNoTitle : Vod :=
  { videoName := str "2024-03-02 Late_Night [55].mp4", vodId := some (str "55")
    userName := str "alice", startedAt := [], info := {} }

/-- No sidecar title and no ` [`-delimited token: the literal fallback
`VOD {identifier}` applies. -/
def vodNoBracket : Vod :=
  { videoName := str "2024-03-02 x.mp4", vodId := some (str "9")
    userName := str "alice", startedAt := [], info := {} }

/-- A sidecar timestamp that does not parse: the date prefix falls back to the
filename and `recordingDate` is omitted. -/
def vodBadDate : Vod :=
  { videoName := str "2024-03-02 Q [7].mp4", vodId := some (str "7")
    userName := str "alice", startedAt := str "bad"
    info := { started_at := some (str "bad"), title := some (str "T") } }

/-! ### Claim theorems -/

/-- C5 counterexample: for a 101-character single word, `clean_title` cuts
after exactly 100 characters in the middle of the word, so the stated
invariant "the truncation point is always a space boundary (a word is never
split mid-word)" is false at this input: the result is neither the
untruncated cleaned string nor a cut that lands on a space. -/
theorem C5_counterexample :
    (cleanedCore (List.replicate 101 'a')).length = 101 ∧
    clean_title (List.replicate 101 'a') = List.replicate 100 'a' ∧
    ¬(clean_title (List.replicate 101 'a') = cleanedCore (List.replicate 101 'a') ∨
      (cleanedCore (List.replicate 101 'a'))[(clean_title
        (List.replicate 101 'a')).length]? = some ' ') := by
  decide

/-- C5 (amended): every synthesized title is at most 100 characters long, and
when the cleaned title is truncated, the cut is at a space boundary whenever
the first 100 characters contain a space; when they contain no space, the
title is cut hard at exactly 100 characters, possibly mid-word. -/
theorem C5_title_length (t : Str) :
    (clean_title t).length ≤ 100 ∧
    (clean_title t = cleanedCore t ∨
      (cleanedCore t)[(clean_title t).length]? = some ' ' ∨
      (clean_title t = (cleanedCore t).take 100 ∧ ' ' ∉ (cleanedCore t).take 100)) :=
  clean_title_spec t

/-- C6: the title-derivation fallback chain and the concrete scenario.  For
the scenario sidecar (`started_at` 2024-03-02T10:00:00Z, title `Big_Win ⭐`,
filename `2024-03-02 Big_Win [998877].mp4`, owner alice) the synthesized
record has title `240302 Big Win`, a description containing `Streamed by
alice` and `VOD ID: 998877`, and recordingDate `2024-03-02`.  With an empty
sidecar title the filename token is used; with no bracketed token the literal
`VOD {identifier}` fallback is used; with an unparseable sidecar timestamp
the `YYMMDD` prefix is derived from the leading filename date and
recordingDate is omitted. -/
theorem C6_metadata_scenario :
    (build_metadata cfgD vodC6).toOption = some
      { title := str "240302 Big Win"
        description := str "Streamed by alice\nGame: Unknown\nOriginal broadcast: 2024-03-02T10:00:00Z\nVOD ID: 998877\n"
        tags := [str "alice", str "Twitch VOD", []]
        language := str "en"
        thumbnail := []
        privacy := str "unlisted"
        recordingDate := some (str "2024-03-02") } ∧
    ((build_metadata cfgD vodC6).toOption.map
      (fun m => containsSub (str "Streamed by alice") m.description &&
        containsSub (str "VOD ID: 998877") m.description) = some true) ∧
    (build_metadata cfgD vodNoTitle).toOption.map Meta.title =
      some (str "240302 Late Night") ∧
    (build_metadata cfgD vodNoBracket).toOption.map Meta.title =
      some (str "240302 VOD 9") ∧
    (build_metadata cfgD vodBadDate).toOption.map Meta.title = some (str "240302 T") ∧
    (build_metadata cfgD vodBadDate).toOption.map Meta.recordingDate = some none := by
  decide

/-- C7: evaluation at the failing input of the code bug.  From the default
state of the playlists store (file missing, so `load_json_file` yields the
empty *list*), a cache miss issues the remote create request, but the
subsequent `playlists[user_name] = playlist_id` raises `TypeError` on the
list, so the call returns `None` and persists nothing — even though the
remote create succeeded.  From a proper object state the claimed behavior
does hold: a hit returns the cached id with no remote call, and a miss
persists the new mapping before returning. -/
theorem C7_playlist_create_bug :
    load_json_file .missing = .jlist [] ∧
    get_or_create_playlist_id envOk (str "alice") (.arr []) =
      (.failure, .arr [], [.createPlaylistCall (str "alice VODs")]) ∧
    envOk.createPlaylist (str "alice") = some (str "PL") ∧
    (upload_video envOk cfgD vodA1 [] (.arr [])).out = .failed ∧
    (runMain envOk cfgD [vodA1] [] (.arr [])).processedAll = true ∧
    get_or_create_playlist_id envOk (str "a") pfW = (.ok (str "PA"), pfW, []) ∧
    get_or_create_playlist_id envOk (str "c") pfW =
      (.ok (str "PL"),
        .obj [(str "a", str "PA"), (str "b", str "PB"), (str "c", str "PL")],
        [.createPlaylistCall (str "c VODs"), .savePlaylists]) := by
  decide

/-- C9 counterexample: a stored ledger containing a duplicate identifier is
returned exactly as stored — the load does not de-duplicate on read. -/
theorem C9_counterexample :
    initLedger (.parsed (.jlist [some (str "a"), some (str "a")])) =
      [some (str "a"), some (str "a")] ∧
    ¬(initLedger (.parsed (.jlist [some (str "a"), some (str "a")]))).Nodup := by
  decide

/-- C9 (amended): loading the ledger from a missing or corrupted backing file
succeeds and yields the empty collection (never aborting the run), and a
stored non-list is replaced by the empty collection; but a stored list is
returned as-is, duplicates included — there is no de-duplication on read. -/
theorem C9_ledger_load (ids : List (Option Str)) :
    initLedger .missing = [] ∧
    initLedger .corrupt = [] ∧
    initLedger (.parsed .jother) = [] ∧
    initLedger (.parsed (.jlist ids)) = ids := by
  exact ⟨rfl, rfl, rfl, rfl⟩

/-- C3 counterexample: with an uploader reporting quota exhaustion on the
first candidate of two, the whole remaining run is aborted and the process
sleeps — but the complete event trace of the run is one uploader call
followed by the sleep: it contains no persistence event whatsoever, so no
cooldown resume time is persisted, contrary to the claim. -/
theorem C3_counterexample :
    (runMain envQuota cfgD [vodA1, vodA2] [] pfW).trace =
      [.uploaderCall vodA1.videoName mA1 (str "PA"), .quotaSleep 86400] ∧
    (runMain envQuota cfgD [vodA1, vodA2] [] pfW).ledger = [] ∧
    (runMain envQuota cfgD [vodA1, vodA2] [] pfW).processedAll = false ∧
    (runMain envQuota cfgD [vodA1, vodA2] [] pfW).attempts = [(vodA1, 0, none)] := by
  decide

/-- C3 (amended): when a quota-exceeded signal is observed, the process
sleeps for exactly the configured `QUOTA_WAIT_HOURS` (in seconds) and that
sleep is the final event of the run — no further upload or playlist-create
attempt is issued, and the rest of the candidate list is abandoned
(`processedAll = false`, modelling `sys.exit`).  No resume time is written to
durable state (see the counterexample). -/
theorem C3_quota_abort (env : Env) (cfg : Config) (pool : List Vod)
    (L0 : List (Option Str)) (pf0 : PlaylistsFile) (s : Nat)
    (hs : Ev.quotaSleep s ∈ (runMain env cfg pool L0 pf0).trace) :
    s = cfg.quotaWaitHours * 3600 ∧
    (runMain env cfg pool L0 pf0).trace.getLast? = some (.quotaSleep s) ∧
    (runMain env cfg pool L0 pf0).processedAll = false :=
  loop_sleep env cfg (sortVods pool) ⟨L0, pf0, 0, none⟩ s hs

theorem C3_witness :
    Ev.quotaSleep 86400 ∈ (runMain envQuota cfgD [vodA1, vodA2] [] pfW).trace ∧
    (86400 = cfgD.quotaWaitHours * 3600 ∧
      (runMain envQuota cfgD [vodA1, vodA2] [] pfW).trace.getLast? =
        some (.quotaSleep 86400) ∧
      (runMain envQuota cfgD [vodA1, vodA2] [] pfW).processedAll = false) :=
  ⟨by decide, C3_quota_abort envQuota cfgD [vodA1, vodA2] [] pfW 86400 (by decide)⟩

/-- C1 counterexample: an uploader invocation that exits with code 0 while
its stderr carries an auth marker is intercepted by the auth check, which
runs before the exit-code check: the call returns `False`, the identifier is
not appended, and nothing is persisted — refuting "appended if and only if
the invocation exits with code 0" in the only-if-to-if direction. -/
theorem C1_counterexample :
    (upload_video envAuthZero cfgD vodA1 [] pfW).out = .failed ∧
    (upload_video envAuthZero cfgD vodA1 [] pfW).ledger = [] ∧
    uploaderCallsOf (upload_video envAuthZero cfgD vodA1 [] pfW).trace =
      [.uploaderCall vodA1.videoName mA1 (str "PA")] ∧
    (envAuthZero.uploader vodA1.videoName mA1 (str "PA")).returncode = 0 := by
  decide

/-- C1 (amended): the candidate's identifier is appended to the ledger if
and only if an uploader invocation for it exits 0 without being intercepted
by a quota or auth stderr marker — equivalently, iff the call's event trace
ends with that invocation immediately followed by the persisted ledger
carrying the appended identifier; on every non-appending outcome the ledger
is unchanged and never saved. -/
theorem C1_ledger_append (env : Env) (cfg : Config) (vod : Vod)
    (L : List (Option Str)) (pf : PlaylistsFile) :
    ((upload_video env cfg vod L pf).out = .success ↔
      ∃ tp m pid, (upload_video env cfg vod L pf).trace =
        tp ++ [.uploaderCall vod.videoName m pid, .saveLedger (L ++ [vod.vodId])] ∧
        (env.uploader vod.videoName m pid).returncode = 0) ∧
    ((upload_video env cfg vod L pf).out = .success →
      (upload_video env cfg vod L pf).ledger = L ++ [vod.vodId]) ∧
    ((upload_video env cfg vod L pf).out ≠ .success →
      (upload_video env cfg vod L pf).ledger = L ∧
      ∀ ids, Ev.saveLedger ids ∉ (upload_video env cfg vod L pf).trace) := by
  rcases h : upload_video env cfg vod L pf with ⟨out, L2, pf2, tr⟩
  dsimp only
  refine ⟨⟨?_, ?_⟩, ?_, ?_⟩
  · intro ho; subst ho
    obtain ⟨hL2, tp, m, pid, htp, hrc⟩ := uv_success_shape env cfg vod L pf h
    exact ⟨tp, m, pid, htp, hrc⟩
  · rintro ⟨tp, m, pid, htp, hrc⟩
    by_contra ho
    obtain ⟨-, hnos⟩ := uv_nonsuccess env cfg vod L pf h ho
    exact hnos (L ++ [vod.vodId]) (by rw [htp]; simp)
  · intro ho; subst ho
    exact (uv_success_shape env cfg vod L pf h).1
  · intro ho
    exact uv_nonsuccess env cfg vod L pf h ho

theorem C1_witness :
    (upload_video envOk cfgD vodA1 [] pfW).out = .success ∧
    (upload_video envOk cfgD vodA1 [] pfW).ledger = [] ++ [vodA1.vodId] :=
  ⟨by decide, (C1_ledger_append envOk cfgD vodA1 [] pfW).2.1 (by decide)⟩

/-- C2 counterexample: with a per-run cap of 1, a first run uploads owner
`a`'s two candidates and stops at the cap break before ever attempting owner
`b`'s candidate.  A second run over the same pool with no ledger mutation in
between uploads one more video, refuting the stated two-run idempotence. -/
theorem C2_counterexample :
    (runMain envOk cfgOne [vodB1, vodA1, vodA2] [] pfW).ledger =
      [some (str "1"), some (str "2")] ∧
    (runMain envOk cfgOne [vodB1, vodA1, vodA2]
        (runMain envOk cfgOne [vodB1, vodA1, vodA2] [] pfW).ledger
        (runMain envOk cfgOne [vodB1, vodA1, vodA2] [] pfW).pf).uploadsDone = 1 ∧
    (runMain envOk cfgOne [vodB1, vodA1, vodA2]
        (runMain envOk cfgOne [vodB1, vodA1, vodA2] [] pfW).ledger
        (runMain envOk cfgOne [vodB1, vodA1, vodA2] [] pfW).pf).ledger ≠
      (runMain envOk cfgOne [vodB1, vodA1, vodA2] [] pfW).ledger := by
  decide

/-- C2 (amended): a candidate whose identifier is already in the ledger at
the start of a run is never handed to `upload_video`; and two-run idempotence
holds provided the first run processed its whole candidate list (was not cut
short by the cap break, a quota exit, or an uncaught error): the second run
over the same pool starting from the first run's persisted state appends
nothing to the ledger. -/
theorem C2_skip_and_idempotent (env : Env) (cfg : Config) (pool : List Vod)
    (L0 : List (Option Str)) (pf0 : PlaylistsFile) :
    (∀ rec ∈ (runMain env cfg pool L0 pf0).attempts, rec.1.vodId ∉ L0) ∧
    ((runMain env cfg pool L0 pf0).processedAll = true →
      (runMain env cfg pool (runMain env cfg pool L0 pf0).ledger
        (runMain env cfg pool L0 pf0).pf).ledger =
      (runMain env cfg pool L0 pf0).ledger) := by
  constructor
  · intro rec hrec
    exact loop_attempts_fresh env cfg (sortVods pool) ⟨L0, pf0, 0, none⟩ rec hrec
  · intro hpa
    rcases hp : pf0 with l | m0
    · have hpf1 : (runMain env cfg pool L0 (.arr l)).pf = .arr l :=
        loop_arr_pf env cfg (sortVods pool) ⟨L0, .arr l, 0, none⟩ l rfl
      exact loop_arr env cfg (sortVods pool)
        ⟨(runMain env cfg pool L0 (.arr l)).ledger,
          (runMain env cfg pool L0 (.arr l)).pf, 0, none⟩ l hpf1
    · have hinv0 : PlInv env m0 (.obj m0) := plInv_init env m0
      have hinv1 : PlInv env m0 (runMain env cfg pool L0 (.obj m0)).pf :=
        loop_pf_inv env cfg m0 (sortVods pool) ⟨L0, .obj m0, 0, none⟩ hinv0
      have H := loop_outcomes env cfg m0 (sortVods pool) ⟨L0, .obj m0, 0, none⟩ hinv0
        (by rw [hp] at hpa; exact hpa)
      exact loop_no_new env cfg m0 (sortVods pool)
        ⟨(runMain env cfg pool L0 (.obj m0)).ledger,
          (runMain env cfg pool L0 (.obj m0)).pf, 0, none⟩ hinv1 H

theorem C2_witness :
    ((vodA1, 0, (none : Option Str)) ∈
      (runMain envOk cfgD [vodA1, vodB1] [] pfW).attempts) ∧
    vodA1.vodId ∉ ([] : List (Option Str)) ∧
    (runMain envOk cfgD [vodA1, vodB1] [] pfW).processedAll = true ∧
    (runMain envOk cfgD [vodA1, vodB1]
        (runMain envOk cfgD [vodA1, vodB1] [] pfW).ledger
        (runMain envOk cfgD [vodA1, vodB1] [] pfW).pf).ledger =
      (runMain envOk cfgD [vodA1, vodB1] [] pfW).ledger :=
  ⟨by decide,
    (C2_skip_and_idempotent envOk cfgD [vodA1, vodB1] [] pfW).1 (vodA1, 0, none)
      (by decide),
    by decide,
    (C2_skip_and_idempotent envOk cfgD [vodA1, vodB1] [] pfW).2 (by decide)⟩

/-- A playlists object mapping the scenario owner. -/
def pfAlice : PlaylistsFile := .obj [(str "alice", str "PA")]

/-- A bracket-less candidate as `find_vods` builds it. -/
def vodNB : Vod :=
  { videoName := str "b-video.mp4", vodId := none, userName := str "bob"
    startedAt := [], info := {} }

/-- Storage tree with one owner and two bracket-less sessions. -/
def fsB : List UserDir :=
  [⟨str "bob",
    [⟨[⟨str "a-info.json", none⟩, ⟨str "a-video.mp4", none⟩]⟩,
     ⟨[⟨str "b-info.json", none⟩, ⟨str "b-video.mp4", none⟩]⟩]⟩]

/-- A playlists object mapping the owner of `fsB`. -/
def pfB : PlaylistsFile := .obj [(str "bob", str "PB")]

/-- C8: candidates are processed in ascending `(owner, started_at)` order —
the run operates on `sortVods pool`, which is sorted under the key order
`vodLe`, and the attempted candidates form a subsequence of it; the cap is a
soft stop: whenever `upload_video` is invoked with the success counter
already at or past the cap, the candidate belongs to the owner of the last
completed upload.  The closed conjunct shows an owner's contiguous run
completing past the cap boundary (cap 1, two uploads for owner `a`) while
the next owner's candidate is never started. -/
theorem C8_order_and_cap (env : Env) (cfg : Config) (pool : List Vod)
    (L0 : List (Option Str)) (pf0 : PlaylistsFile) :
    (sortVods pool).Pairwise vodLe ∧
    ((runMain env cfg pool L0 pf0).attempts.map (fun r => r.1)).Sublist (sortVods pool) ∧
    (∀ rec ∈ (runMain env cfg pool L0 pf0).attempts,
      rec.2.1 < cfg.maxUploads ∨ rec.2.2 = some rec.1.userName) ∧
    ((runMain envOk cfgOne [vodA1, vodA2, vodB1] [] pfW).uploadsDone = 2 ∧
      cfgOne.maxUploads = 1 ∧
      (runMain envOk cfgOne [vodA1, vodA2, vodB1] [] pfW).attempts.map (fun r => r.1) =
        [vodA1, vodA2]) :=
  ⟨sorted_sortVods pool,
    loop_attempts_sublist env cfg (sortVods pool) ⟨L0, pf0, 0, none⟩,
    fun rec hrec => loop_cap env cfg (sortVods pool) ⟨L0, pf0, 0, none⟩ rec hrec,
    by decide⟩

theorem C8_witness :
    ((vodA2, 1, some (str "a")) ∈
      (runMain envOk cfgOne [vodA1, vodA2, vodB1] [] pfW).attempts) ∧
    (1 < cfgOne.maxUploads ∨ (some (str "a") : Option Str) = some vodA2.userName) :=
  ⟨by decide,
    (C8_order_and_cap envOk cfgOne [vodA1, vodA2, vodB1] [] pfW).2.2.1
      (vodA2, 1, some (str "a")) (by decide)⟩

/-- C10: a filename without an opening bracket yields identifier `None`
rather than an error; `find_vods` still admits such candidates; a candidate
whose identifier is `None` is skipped exactly when `None` is already in the
ledger; and in the concrete two-candidate bracket-less pool the first is
uploaded (recording `None` in the ledger) after which the second is treated
as already uploaded and skipped. -/
theorem C10_bracketless (s : Str) (hs : s.contains '[' = false) :
    extract_vod_id s = none ∧
    (∀ env cfg (v : Vod) rest st, v.vodId = none → (none : Option Str) ∈ st.ledger →
      loop env cfg (v :: rest) st = loop env cfg rest st) ∧
    (find_vods fsB).map Vod.vodId = [none, none] ∧
    (runMain envOk cfgD (find_vods fsB) [] pfB).ledger = [none] ∧
    (runMain envOk cfgD (find_vods fsB) [] pfB).attempts.map (fun r => r.1.vodId) =
      [none] ∧
    (runMain envOk cfgD (find_vods fsB) [] pfB).uploadsDone = 1 := by
  refine ⟨?_, ?_, by decide, by decide, by decide, by decide⟩
  · unfold extract_vod_id
    rw [hs]
    rfl
  · intro env cfg v rest st hv hnone
    exact loop_cons_skip env cfg v rest st (hv ▸ hnone)

theorem C10_witness :
    (str "abc-info.json").contains '[' = false ∧
    extract_vod_id (str "abc-info.json") = none ∧
    loop envOk cfgD [vodNB] ⟨[none], pfB, 0, none⟩ =
      loop envOk cfgD [] ⟨[none], pfB, 0, none⟩ :=
  ⟨by decide,
    (C10_bracketless (str "abc-info.json") (by decide)).1,
    (C10_bracketless (str "abc-info.json") (by decide)).2.1 envOk cfgD vodNB []
      ⟨[none], pfB, 0, none⟩ rfl (by decide)⟩

/-- C4: per candidate at most two uploader invocations occur (one first
attempt, at most one degraded retry); a retry happens only when the first
attempt exits non-zero with neither quota nor auth markers (the failure
signature the specification calls a metadata-validation rejection), and its
metadata is the first attempt's with `recordingDate` stripped and/or the
title rebuilt from the filename (`retryMetaDateErr` always strips
`recordingDate`); and a `failed` outcome is terminal only for that candidate:
the loop records the attempt and continues with the remaining candidates,
counters unchanged. -/
theorem C4_retry_bound (env : Env) (cfg : Config) (vod : Vod)
    (L : List (Option Str)) (pf : PlaylistsFile) :
    ((uploaderCallsOf (upload_video env cfg vod L pf).trace).length ≤ 2) ∧
    (uploaderCallsOf (upload_video env cfg vod L pf).trace = [] ∨
      ∃ m1 pid, build_metadata cfg vod = .ok m1 ∧
        (uploaderCallsOf (upload_video env cfg vod L pf).trace =
            [.uploaderCall vod.videoName m1 pid] ∨
          ((uploaderCallsOf (upload_video env cfg vod L pf).trace =
              [.uploaderCall vod.videoName m1 pid,
                .uploaderCall vod.videoName (retryMetaDateErr vod m1) pid] ∨
            uploaderCallsOf (upload_video env cfg vod L pf).trace =
              [.uploaderCall vod.videoName m1 pid,
                .uploaderCall vod.videoName (retryMetaGeneric vod m1) pid]) ∧
            (env.uploader vod.videoName m1 pid).returncode ≠ 0 ∧
            quotaSig (env.uploader vod.videoName m1 pid) = false ∧
            authSig (env.uploader vod.videoName m1 pid) = false))) ∧
    (∀ m, (retryMetaDateErr vod m).recordingDate = none) ∧
    (∀ rest d cu, vod.vodId ∉ L →
      ¬(cfg.maxUploads ≤ d ∧ cu ≠ some vod.userName) →
      (upload_video env cfg vod L pf).out = .failed →
      (loop env cfg (vod :: rest) ⟨L, pf, d, cu⟩).attempts =
        (vod, d, cu) :: (loop env cfg rest ⟨(upload_video env cfg vod L pf).ledger,
          (upload_video env cfg vod L pf).pf, d, cu⟩).attempts ∧
      (loop env cfg (vod :: rest) ⟨L, pf, d, cu⟩).processedAll =
        (loop env cfg rest ⟨(upload_video env cfg vod L pf).ledger,
          (upload_video env cfg vod L pf).pf, d, cu⟩).processedAll) := by
  rcases h : upload_video env cfg vod L pf with ⟨out, L2, pf2, tr⟩
  dsimp only
  have hcalls := uv_calls env cfg vod L pf h
  refine ⟨?_, hcalls, ?_, ?_⟩
  · rcases hcalls with h1 | ⟨m1, pid, -, h1 | ⟨h1 | h1, -⟩⟩ <;> simp [h1]
  · intro m
    unfold retryMetaDateErr
    rcases hg : get_title_from_filename vod.videoName with e | ft
    · rfl
    · rcases ft with _ | t
      · rfl
      · by_cases ht : t.isEmpty <;> simp [ht]
  · intro rest d cu hmem hcap hout
    subst hout
    obtain ⟨ha, hp⟩ := loop_failed_continues env cfg vod rest ⟨L, pf, d, cu⟩ hmem hcap h
    exact ⟨ha, hp⟩

theorem C4_witness :
    ((uploaderCallsOf (upload_video envDateRetry cfgD vodC6 [] pfAlice).trace).length = 2 ∧
      (upload_video envDateRetry cfgD vodC6 [] pfAlice).out = .success) ∧
    (uploaderCallsOf (upload_video envDateRetry cfgD vodC6 [] pfAlice).trace).length ≤ 2 ∧
    ((upload_video envFailAll cfgD vodA1 [] pfW).out = .failed ∧
      (loop envFailAll cfgD [vodA1] ⟨[], pfW, 0, none⟩).attempts =
        (vodA1, 0, (none : Option Str)) ::
          (loop envFailAll cfgD [] ⟨(upload_video envFailAll cfgD vodA1 [] pfW).ledger,
            (upload_video envFailAll cfgD vodA1 [] pfW).pf, 0, none⟩).attempts) :=
  ⟨⟨by decide, by decide⟩,
    (C4_retry_bound envDateRetry cfgD vodC6 [] pfAlice).1,
    by decide,
    ((C4_retry_bound envFailAll cfgD vodA1 [] pfW).2.2.2 [] 0 none (by decide)
      (by decide) (by decide)).1⟩

end UploadVods
